import Mathlib

/-
Verification of the PowerBIMentor metadata extraction pipeline.

The definitions below are a shallow embedding of the Python source:
  PowerBIMentor/utils/processor.py  (pbit_to_json decode step,
                                     extract_grading_info,
                                     generate_grading_report)
  PowerBIMentor/utils/extractor.py  (extract_zip_to_temp)

Parsed JSON documents are modelled by the inductive type Json; Python
runtime errors (AttributeError / TypeError on malformed trees) are
modelled by the Except monad.  All definitions are computable so that
theorems can be instantiated on concrete documents.
-/

/-- JSON-like values as produced by json.loads in processor.py: Python
dicts (modelled as association lists in key order, keys unique), lists,
str, int, bool and None.  Numbers are modelled as integers; the grading
logic never does arithmetic on them. -/
inductive Json where
  | null : Json
  | bool : Bool → Json
  | num : Int → Json
  | str : String → Json
  | arr : List Json → Json
  | obj : List (String × Json) → Json

/-- Python truthiness of a JSON-derived value: None, False, 0, the empty
string, the empty list and the empty dict are falsy; everything else is
truthy. -/
def pyTruthy : Json → Bool
  | .null => false
  | .bool b => b
  | .num n => n != 0
  | .str s => s != ""
  | .arr xs => !xs.isEmpty
  | .obj kvs => !kvs.isEmpty

/-- Test for a Python dict. -/
def Json.isObj : Json → Bool
  | .obj _ => true
  | _ => false

/-- dict.get(key) on a dict value: the stored value, or None when the key
is absent.  Non-dict receivers are routed through pyGet below. -/
def jget : Json → String → Json
  | .obj kvs, k => (((kvs.find? (fun kv => kv.1 == k))).map (fun kv => kv.2)).getD .null
  | _, _ => .null

/-- dict.get(key, default) on a dict value. -/
def jgetD : Json → String → Json → Json
  | .obj kvs, k, d => (((kvs.find? (fun kv => kv.1 == k))).map (fun kv => kv.2)).getD d
  | _, _, d => d

/-- value.get(key): returns the stored value (default None) when the
receiver is a dict and raises AttributeError otherwise, as Python does. -/
def pyGet (v : Json) (k : String) : Except String Json :=
  if v.isObj then .ok (jget v k) else .error "AttributeError: object has no attribute get"

/-- value.get(key, default) with the same error behaviour as pyGet. -/
def pyGetD (v : Json) (k : String) (d : Json) : Except String Json :=
  if v.isObj then .ok (jgetD v k d) else .error "AttributeError: object has no attribute get"

/-- Python x or y: y when x is falsy, else x. -/
def pyOr (a b : Json) : Json := if pyTruthy a then a else b

/-- The elements produced by iterating a Python value: a list yields its
items, a string its characters (as one-character strings), a dict its
keys. -/
def pyIterP : Json → List Json
  | .arr xs => xs
  | .str s => s.toList.map (fun c => Json.str (String.singleton c))
  | .obj kvs => kvs.map (fun kv => Json.str kv.1)
  | _ => []

/-- for x in v: iteration succeeds on lists, strings and dicts and raises
TypeError on None, bool and numbers, as Python does. -/
def pyIter (v : Json) : Except String (List Json) :=
  match v with
  | .arr _ | .str _ | .obj _ => .ok (pyIterP v)
  | _ => .error "TypeError: object is not iterable"

/-- Contiguous-sublist test over character lists. -/
def listContainsSublist (needle : List Char) : List Char → Bool
  | [] => needle.isEmpty
  | c :: rest => needle.isPrefixOf (c :: rest) || listContainsSublist needle rest

/-- Python substring containment, needle in hay, case sensitive. -/
def strContains (hay needle : String) : Bool :=
  listContainsSublist needle.toList hay.toList

/-- Python equality of a JSON-derived value against a string literal:
only a string with the same characters compares equal; values of any
other type compare unequal to a string. -/
def pyEqStr : Json → String → Bool
  | .str s, t => s == t
  | _, _ => false

/-- Python needle in v for a string needle: substring test on strings,
element membership on lists, key membership on dicts. -/
def pyInP (needle : String) : Json → Bool
  | .str s => strContains s needle
  | .arr xs => xs.any (fun e => pyEqStr e needle)
  | .obj kvs => kvs.any (fun kv => kv.1 == needle)
  | _ => false

/-- Python needle in v, raising TypeError on non-container values. -/
def pyIn (needle : String) (v : Json) : Except String Bool :=
  match v with
  | .str _ | .arr _ | .obj _ => .ok (pyInP needle v)
  | _ => .error "TypeError: argument is not a container"

/-- An ASCII single quote, written via its code point. -/
def squote : String := String.singleton (Char.ofNat 39)

mutual

/-- Python repr of a JSON-derived value, used by str on containers.
Character escaping inside strings is not modelled; no claim depends on
it. -/
def pyRepr : Json → String
  | .null => "None"
  | .bool b => if b then "True" else "False"
  | .num n => toString n
  | .str s => squote ++ s ++ squote
  | .arr xs => "[" ++ pyReprArr xs ++ "]"
  | .obj kvs => "\x7b" ++ pyReprObj kvs ++ "\x7d"

/-- Comma-separated reprs of list elements. -/
def pyReprArr : List Json → String
  | [] => ""
  | [x] => pyRepr x
  | x :: y :: rest => pyRepr x ++ ", " ++ pyReprArr (y :: rest)

/-- Comma-separated reprs of dict entries. -/
def pyReprObj : List (String × Json) → String
  | [] => ""
  | [(k, v)] => squote ++ k ++ squote ++ ": " ++ pyRepr v
  | (k, v) :: y :: rest => squote ++ k ++ squote ++ ": " ++ pyRepr v ++ ", " ++ pyReprObj (y :: rest)

end

/-- str(v) as evaluated inside f-strings: strings render verbatim, other
values via their Python text form. -/
def pyStr : Json → String
  | .str s => s
  | .null => "None"
  | .bool b => if b then "True" else "False"
  | .num n => toString n
  | .arr xs => pyRepr (.arr xs)
  | .obj kvs => pyRepr (.obj kvs)

/-- sep.join(xs) on JSON-derived elements: concatenates when every
element is a string and raises TypeError otherwise, as Python does. -/
def pyJoinStrs (sep : String) : List Json → Except String String
  | [] => .ok ""
  | [x] =>
    match x with
    | .str s => .ok s
    | _ => .error "TypeError: sequence item: expected str instance"
  | x :: y :: rest =>
    match x with
    | .str s => (pyJoinStrs sep (y :: rest)).map (fun r => s ++ sep ++ r)
    | _ => .error "TypeError: sequence item: expected str instance"

/-- sep.join over plain strings (always succeeds). -/
def strJoin (sep : String) : List String → String
  | [] => ""
  | [x] => x
  | x :: y :: rest => x ++ sep ++ strJoin sep (y :: rest)

/-- ASCII whitespace as recognised by Python str.strip; the schema
content this runs on is ASCII. -/
def isPySpace (c : Char) : Bool :=
  c == ' ' || c == '\t' || c == '\n' || c == '\r' || c == '\x0b' || c == '\x0c'

/-- Python str.strip(): drop leading and trailing whitespace. -/
def pyStrip (s : String) : String :=
  String.mk (((s.toList.dropWhile isPySpace).reverse.dropWhile isPySpace).reverse)

/-- Split a character list at newline separators, Python str.split
semantics: the empty input yields one empty part. -/
def splitNl : List Char → List (List Char)
  | [] => [[]]
  | c :: rest =>
    let r := splitNl rest
    if c == '\n' then [] :: r
    else
      match r with
      | [] => [[c]]
      | h :: t => (c :: h) :: t

/-- Python s.split for the newline separator. -/
def pySplitLines (s : String) : List String := (splitNl s.toList).map String.mk

/-- One entry of table_info["columns"] (processor.py lines 125-130). -/
structure ColumnInfo where
  name : Json
  data_type : Json
  summarize_by : Json
  is_calculated : Bool

/-- One entry of the measure lists (processor.py lines 139-143). -/
structure MeasureInfo where
  name : Json
  expression : String
  table : Json

/-- One entry of grading_info["tables"] (processor.py line 120). -/
structure TableInfo where
  name : Json
  columns : List ColumnInfo
  measures : List MeasureInfo

/-- One entry of grading_info["relationships"] (processor.py lines
163-167).  The from and to fields are the already formatted strings the
source builds with f-strings. -/
structure RelationshipInfo where
  fromStr : String
  toStr : String
  relType : Json

/-- One entry of grading_info["hierarchies"] (processor.py lines
177-181). -/
structure HierarchyInfo where
  name : Json
  table : Json
  levels : List Json

/-- grading_info["data_source"] when present (processor.py line 155). -/
structure DataSourceInfo where
  dsType : String
  dsPath : String

/-- grading_info["summary"] when a main table exists (processor.py lines
187-198), fields in dict insertion order. -/
structure SummaryStats where
  main_table : Json
  total_columns : Nat
  total_measures : Nat
  total_relationships : Nat
  total_hierarchies : Nat
  has_time_intelligence : Bool

/-- The grading_info dict built by extract_grading_info (processor.py
lines 100-109).  A summary of none models the initial empty dict. -/
structure GradingInfo where
  model_name : Json
  compatibility_level : Json
  tables : List TableInfo
  measures : List MeasureInfo
  relationships : List RelationshipInfo
  hierarchies : List HierarchyInfo
  data_source : Option DataSourceInfo
  summary : Option SummaryStats

/-- One column record (processor.py lines 125-130); the receiver is a
dict whenever this is reached. -/
def mkColumnInfo (col : Json) : ColumnInfo :=
  { name := jget col "name"
    data_type := jget col "dataType"
    summarize_by := jget col "summarizeBy"
    is_calculated := pyEqStr (jget col "type") "calculated" }

/-- Column loop of one table (processor.py lines 122-130): columns with a
truthy isHidden are skipped. -/
def processColumns : List Json → Except String (List ColumnInfo)
  | [] => .ok []
  | col :: rest => do
    let hid ← pyGet col "isHidden"
    if pyTruthy hid then processColumns rest
    else do
      let r ← processColumns rest
      .ok (mkColumnInfo col :: r)

/-- Measure expression normalisation (processor.py lines 133-137): a list
keeps its string entries with non-blank content, joined by newlines; a
string is stripped; any other value becomes the empty string. -/
def measureExpr : Json → String
  | .arr xs => strJoin "\n" (xs.filterMap (fun l =>
      match l with
      | .str s => if pyStrip s != "" then some s else none
      | _ => none))
  | .str s => pyStrip s
  | _ => ""

/-- Measure loop of one table (processor.py lines 132-146). -/
def processMeasures (tname : Json) : List Json → Except String (List MeasureInfo)
  | [] => .ok []
  | m :: rest => do
    let exprLines ← pyGetD m "expression" (.arr [])
    let r ← processMeasures tname rest
    .ok ({ name := jget m "name", expression := measureExpr exprLines, table := tname } :: r)

/-- Match of the pattern File\.Contents\("([^\"]+)"\) anchored at the
current position: the literal head, then at least one non-quote
character, then a quote and a closing parenthesis; returns the captured
group (processor.py line 153). -/
def matchFileContentsAt (cs : List Char) : Option String :=
  let pat := "File.Contents(\"".toList
  if pat.isPrefixOf cs then
    let rest := cs.drop pat.length
    let run := rest.takeWhile (fun c => c != '"')
    if run.isEmpty then none
    else
      match rest.drop run.length with
      | '"' :: ')' :: _ => some (String.mk run)
      | _ => none
  else none

/-- re.search of the File.Contents pattern: the leftmost match wins. -/
def reSearchFileContents : List Char → Option String
  | [] => none
  | c :: rest => (matchFileContentsAt (c :: rest)).orElse (fun _ => reSearchFileContents rest)

/-- Partition loop of one table (processor.py lines 148-155): scan
m-partitions for a File.Contents reference; the first match in document
order wins. -/
def processPartitions : List Json → Except String (Option DataSourceInfo)
  | [] => .ok none
  | p :: rest => do
    let src ← pyGet p "source"
    let source := pyOr src (.obj [])
    let ty ← pyGet source "type"
    if pyEqStr ty "m" then do
      let expr ← pyGetD source "expression" (.arr [])
      let mcode ←
        match expr with
        | .arr xs => pyJoinStrs " " xs
        | .str s => Except.ok s
        | _ => Except.ok ""
      let found := (reSearchFileContents mcode.toList).map
        (fun path => { dsType := "File", dsPath := path : DataSourceInfo })
      let r ← processPartitions rest
      .ok (found.orElse (fun _ => r))
    else processPartitions rest

/-- Construction of one kept table entry: name, visible columns and this
table own measures (processor.py lines 118-146). -/
def mkTableInfoE (t : Json) : Except String TableInfo := do
  let tname ← pyGet t "name"
  let colsL ← pyIter (pyOr (jgetD t "columns" (.arr [])) (.arr []))
  let cols ← processColumns colsL
  let msL ← pyIter (pyOr (jgetD t "measures" (.arr [])) (.arr []))
  let ms ← processMeasures tname msL
  .ok { name := tname, columns := cols, measures := ms }

/-- Table filter (processor.py line 115): a table is kept when neither
isHidden nor isPrivate is truthy. -/
def keepTable (t : Json) : Bool :=
  !(pyTruthy (jget t "isHidden") || pyTruthy (jget t "isPrivate"))

/-- First table pass (processor.py lines 114-157): builds the table list,
the flattened measure list and the first found data source.  The Python
short-circuit between the isHidden and isPrivate lookups is not
observable: both only need the receiver to be a dict. -/
def processTables : List Json → Except String (List TableInfo × List MeasureInfo × Option DataSourceInfo)
  | [] => .ok ([], [], none)
  | t :: rest => do
    let hid ← pyGet t "isHidden"
    let priv ← pyGet t "isPrivate"
    if pyTruthy hid || pyTruthy priv then processTables rest
    else do
      let ti ← mkTableInfoE t
      let partsL ← pyIter (pyOr (jgetD t "partitions" (.arr [])) (.arr []))
      let ds ← processPartitions partsL
      let rec_ ← processTables rest
      .ok (ti :: rec_.1, ti.measures ++ rec_.2.1, ds.orElse (fun _ => rec_.2.2))

/-- One kept relationship entry (processor.py lines 163-167). -/
def mkRelInfo (r : Json) : RelationshipInfo :=
  { fromStr := pyStr (jget r "fromTable") ++ "[" ++ pyStr (jget r "fromColumn") ++ "]"
    toStr := pyStr (jget r "toTable") ++ "[" ++ pyStr (jget r "toColumn") ++ "]"
    relType := pyOr (jget r "joinOnDateBehavior") (.str "standard") }

/-- Pure form of the relationship filter (processor.py lines 160-162): a
relationship is kept when LocalDateTable is not in its coalesced toTable
value. -/
def relKeptP (r : Json) : Bool :=
  !(pyInP "LocalDateTable" (pyOr (jget r "toTable") (.str "")))

/-- Relationship pass (processor.py lines 159-167). -/
def processRels : List Json → Except String (List RelationshipInfo)
  | [] => .ok []
  | r :: rest => do
    let toT ← pyGet r "toTable"
    let isIn ← pyIn "LocalDateTable" (pyOr toT (.str ""))
    if isIn then processRels rest
    else do
      let rs ← processRels rest
      .ok (mkRelInfo r :: rs)

/-- Pure form of the hierarchy skip test (processor.py line 175): some
annotation entry is a dict whose name equals TemplateId. -/
def hasTemplateId (h : Json) : Bool :=
  (pyIterP (pyOr (jgetD h "annotations" (.arr [])) (.arr []))).any
    (fun a => a.isObj && pyEqStr (jget a "name") "TemplateId")

/-- One kept hierarchy entry (processor.py lines 177-181): non-dict level
entries are silently skipped. -/
def mkHierInfo (tname : Json) (h : Json) : HierarchyInfo :=
  { name := jget h "name"
    table := tname
    levels := ((pyIterP (pyOr (jgetD h "levels" (.arr [])) (.arr []))).filter Json.isObj).map
      (fun lvl => jget lvl "name") }

/-- Hierarchy loop of one non-hidden table (processor.py lines 173-181). -/
def processHierList (tname : Json) : List Json → Except String (List HierarchyInfo)
  | [] => .ok []
  | h :: rest => do
    let annosJ ← pyGetD h "annotations" (.arr [])
    let annos ← pyIter (pyOr annosJ (.arr []))
    if annos.any (fun a => a.isObj && pyEqStr (jget a "name") "TemplateId") then
      processHierList tname rest
    else do
      let lvls ← pyIter (pyOr (jgetD h "levels" (.arr [])) (.arr []))
      let rs ← processHierList tname rest
      .ok ({ name := jget h "name", table := tname,
             levels := (lvls.filter Json.isObj).map (fun lvl => jget lvl "name") } :: rs)

/-- Second table pass (processor.py lines 169-181): the hierarchy scan
runs over every non-hidden table; isPrivate is not consulted here. -/
def processHiers : List Json → Except String (List HierarchyInfo)
  | [] => .ok []
  | t :: rest => do
    let hid ← pyGet t "isHidden"
    if pyTruthy hid then processHiers rest
    else do
      let hl ← pyIter (pyOr (jgetD t "hierarchies" (.arr [])) (.arr []))
      let his ← processHierList (jget t "name") hl
      let rs ← processHiers rest
      .ok (his ++ rs)

/-- Main table choice (processor.py lines 183-184): the first kept table
named Sheet1 when one exists, else the first kept table.  A table record
is a three-key dict, hence always truthy, so the Python or-chain is
exactly this Option choice. -/
def mainTableOf (tis : List TableInfo) : Option TableInfo :=
  (tis.find? (fun t => pyEqStr t.name "Sheet1")).orElse (fun _ => tis.head?)

/-- Time intelligence test (processor.py lines 193-197).  The expression
field of a measure record is a string by construction, so the isinstance
guard on it always holds; the name field can be any JSON value. -/
def hasTimeIntel (ms : List MeasureInfo) : Bool :=
  ms.any (fun m => strContains m.expression "SAMEPERIODLASTYEAR" ||
    (match m.name with
     | .str s => strContains s "YoY"
     | _ => false))

/-- The summary record (processor.py lines 186-198). -/
def mkSummary (mt : TableInfo) (ms : List MeasureInfo) (rs : List RelationshipInfo)
    (hs : List HierarchyInfo) : SummaryStats :=
  { main_table := mt.name
    total_columns := mt.columns.length
    total_measures := ms.length
    total_relationships := rs.length
    total_hierarchies := hs.length
    has_time_intelligence := hasTimeIntel ms }

/-- Root resolution (processor.py line 98): the nested model dict when
present, else the tree itself. -/
def modelRootOf (model : Json) : Json :=
  if (jget model "model").isObj then jget model "model" else model

/-- Shallow embedding of extract_grading_info (processor.py lines
72-200).  Error values model the Python exceptions the source raises on
malformed trees; the ok value is the returned grading_info dict.  The
name and compatibilityLevel lookups cannot fail here (the receivers are
dicts whenever they are reached), so evaluating them without the Python
or short-circuit is not observable. -/
def extract_grading_info (model : Json) : Except String GradingInfo := do
  let mval ← pyGet model "model"
  let model_root := if mval.isObj then mval else model
  let nameRoot ← pyGet model "name"
  let nameNested ← pyGet model_root "name"
  let compatRoot ← pyGet model "compatibilityLevel"
  let compatNested ← pyGet model_root "compatibilityLevel"
  let tablesJ := if model_root.isObj then jgetD model_root "tables" (.arr []) else .arr []
  let relsJ := if model_root.isObj then jgetD model_root "relationships" (.arr []) else .arr []
  let ts ← pyIter tablesJ
  let res ← processTables ts
  let rls ← pyIter relsJ
  let ris ← processRels rls
  let his ← processHiers ts
  .ok { model_name := pyOr nameRoot (pyOr nameNested (.str "Unknown"))
        compatibility_level := pyOr compatRoot compatNested
        tables := res.1
        measures := res.2.1
        relationships := ris
        hierarchies := his
        data_source := res.2.2
        summary := (mainTableOf res.1).map (fun mt => mkSummary mt res.2.1 ris his) }

/-- Lines of one table block of the report (processor.py lines 233-252). -/
def tableLines (t : TableInfo) : List String :=
  ["  - " ++ pyStr t.name, "    Columns:"]
  ++ t.columns.map (fun c =>
      "      • " ++ pyStr c.name ++ " (type=" ++ pyStr c.data_type
      ++ ", summarize_by=" ++ pyStr c.summarize_by
      ++ ", calculated=" ++ (if c.is_calculated then "True" else "False") ++ ")")
  ++ (if !t.measures.isEmpty then
        "    Measures:" :: t.measures.map (fun m => "      • " ++ pyStr m.name)
      else ["    Measures: none"])
  ++ [""]

/-- Lines of one entry of the measure details section (processor.py lines
255-260).  The or-coalescing of the expression is the identity here since
the expression field is already a string. -/
def measureDetailLines (m : MeasureInfo) : List String :=
  ("  - " ++ pyStr m.name ++ " (table: " ++ pyStr m.table ++ ")")
  :: (pySplitLines m.expression).map (fun l => "      " ++ l)
  ++ [""]

/-- One line of the hierarchies section (processor.py line 274): joining
the level names raises TypeError when a level name is not a string, as
the Python join does. -/
def hierLine (h : HierarchyInfo) : Except String String := do
  let lv ← pyJoinStrs ", " h.levels
  .ok ("  - " ++ pyStr h.name ++ " (table: " ++ pyStr h.table ++ ") levels: " ++ lv)

/-- Lines of the summary section (processor.py lines 279-281), keys in
dict insertion order; an absent summary renders nothing. -/
def summaryLines : Option SummaryStats → List String
  | none => []
  | some s =>
    ["  - main_table: " ++ pyStr s.main_table,
     "  - total_columns: " ++ toString s.total_columns,
     "  - total_measures: " ++ toString s.total_measures,
     "  - total_relationships: " ++ toString s.total_relationships,
     "  - total_hierarchies: " ++ toString s.total_hierarchies,
     "  - has_time_intelligence: " ++ (if s.has_time_intelligence then "True" else "False")]

/-- Shallow embedding of generate_grading_report (processor.py lines
203-283): the deterministic multi-section report text. -/
def generate_grading_report (g : GradingInfo) : Except String String := do
  let headerLs := ["Model: " ++ pyStr g.model_name,
                   "Compatibility Level: " ++ pyStr g.compatibility_level, ""]
  let dsLs :=
    match g.data_source with
    | some ds => ["Data Source:", "  Type: " ++ ds.dsType, "  Path: " ++ ds.dsPath, ""]
    | none => []
  let tableLs := "Tables:" :: g.tables.flatMap tableLines
  let measureLs := "Measures (details):" :: g.measures.flatMap measureDetailLines
  let relLs := "Relationships:" ::
    (if !g.relationships.isEmpty then
        g.relationships.map (fun r =>
          "  - " ++ r.fromStr ++ " -> " ++ r.toStr ++ " (" ++ pyStr r.relType ++ ")")
      else ["  none"]) ++ [""]
  let hierBody ← if !g.hierarchies.isEmpty then g.hierarchies.mapM hierLine
                 else Except.ok ["  none"]
  let hierLs := "Hierarchies:" :: hierBody ++ [""]
  let sumLs := "Summary:" :: summaryLines g.summary
  .ok (strJoin "\n" (headerLs ++ dsLs ++ tableLs ++ measureLs ++ relLs ++ hierLs ++ sumLs))

/-- Python error handler for bytes.decode. -/
inductive DecodeMode where
  | strict
  | ignoreErrors
  | replaceErrors

/-- UTF-16 code units of a little-endian byte sequence, with a flag for a
trailing odd byte. -/
def unitsLE : List Nat → List Nat × Bool
  | [] => ([], false)
  | [_] => ([], true)
  | b0 :: b1 :: rest =>
    let r := unitsLE rest
    (((b1 % 256) * 256 + b0 % 256) :: r.1, r.2)

/-- UTF-16 code units of a big-endian byte sequence, with a flag for a
trailing odd byte. -/
def unitsBE : List Nat → List Nat × Bool
  | [] => ([], false)
  | [_] => ([], true)
  | b0 :: b1 :: rest =>
    let r := unitsBE rest
    (((b0 % 256) * 256 + b1 % 256) :: r.1, r.2)

/-- Decode UTF-16 code units to code points with the Python error
handlers: strict fails on a lone surrogate, ignoreErrors drops it,
replaceErrors substitutes U+FFFD. -/
def decodeUnits (mode : DecodeMode) : List Nat → Option (List Nat)
  | [] => some []
  | [u] =>
    if u < 0xD800 || 0xDFFF < u then some [u]
    else
      match mode with
      | .strict => none
      | .ignoreErrors => some []
      | .replaceErrors => some [0xFFFD]
  | u :: v :: rest =>
    if u < 0xD800 || 0xDFFF < u then
      (decodeUnits mode (v :: rest)).map (fun cs => u :: cs)
    else if u ≤ 0xDBFF && 0xDC00 ≤ v && v ≤ 0xDFFF then
      (decodeUnits mode rest).map
        (fun cs => (0x10000 + (u - 0xD800) * 0x400 + (v - 0xDC00)) :: cs)
    else
      match mode with
      | .strict => none
      | .ignoreErrors => decodeUnits mode (v :: rest)
      | .replaceErrors => (decodeUnits mode (v :: rest)).map (fun cs => 0xFFFD :: cs)

/-- Decode a byte sequence as UTF-16 little-endian (utf-16-le) with the
given error handler; a trailing odd byte is a truncated-data error. -/
def decodeUtf16le (mode : DecodeMode) (bs : List Nat) : Option (List Nat) :=
  match decodeUnits mode (unitsLE bs).1 with
  | none => none
  | some cs =>
    if (unitsLE bs).2 then
      match mode with
      | .strict => none
      | .ignoreErrors => some cs
      | .replaceErrors => some (cs ++ [0xFFFD])
    else some cs

/-- Decode a byte sequence as UTF-16 big-endian with the given error
handler. -/
def decodeUtf16be (mode : DecodeMode) (bs : List Nat) : Option (List Nat) :=
  match decodeUnits mode (unitsBE bs).1 with
  | none => none
  | some cs =>
    if (unitsBE bs).2 then
      match mode with
      | .strict => none
      | .ignoreErrors => some cs
      | .replaceErrors => some (cs ++ [0xFFFD])
    else some cs

/-- bytes.decode("utf-16"): honours a leading byte order mark and
otherwise assumes little-endian order (the native order of the machines
this tool targets); strict error handling, so any invalid sequence makes
the whole decode fail (processor.py line 63). -/
def decodeUtf16Strict (bs : List Nat) : Option (List Nat) :=
  match bs with
  | 0xFF :: 0xFE :: rest => decodeUtf16le .strict rest
  | 0xFE :: 0xFF :: rest => decodeUtf16be .strict rest
  | _ => decodeUtf16le .strict bs

/-- The two-stage schema decode of pbit_to_json (processor.py lines
62-65): decode as utf-16 and, when that raises, retry as utf-16-le with
errors ignore.  The result is the decoded code point sequence. -/
def pbitDecodeBytes (bs : List Nat) : Option (List Nat) :=
  match decodeUtf16Strict bs with
  | some cs => some cs
  | none => decodeUtf16le .ignoreErrors bs

/-- Environment of one extract_zip_to_temp call (extractor.py): the
oracle answers of the filesystem checks, the name mkdtemp returns, and
whether extractall raises BadZipFile with some message. -/
structure ZipEnv where
  resolved : String
  cwd : String
  pathExists : Bool
  isFile : Bool
  isZipfile : Bool
  fileSize : Nat
  tempDirName : String
  badZip : Option String

/-- Python exception surfaced by extract_zip_to_temp. -/
inductive PyExn where
  | fileNotFound (msg : String)
  | valueError (msg : String)

/-- Filesystem side effects of one extract_zip_to_temp call, in order. -/
inductive ZipEvent where
  | mkdtempDir (dir : String)
  | rmtreeDir (dir : String)

/-- Observable outcome of one extract_zip_to_temp call: its return value
or exception together with the ordered directory events. -/
structure ZipRun where
  result : Except PyExn String
  events : List ZipEvent

/-- Shallow embedding of extract_zip_to_temp (extractor.py lines 8-67)
over the environment oracle: validation checks in source order, then the
temporary directory creation, and on a BadZipFile during extraction the
cleanup of that directory followed by a ValueError naming the original
path and the cause. -/
def extract_zip_to_temp (zip_path : String) (env : ZipEnv) : ZipRun :=
  if !env.pathExists then
    { result := .error (.fileNotFound ("ZIP file not found: " ++ zip_path
        ++ "\nResolved to: " ++ env.resolved
        ++ "\nCurrent working directory: " ++ env.cwd))
      events := [] }
  else if !env.isFile then
    { result := .error (.valueError ("Path is not a file: " ++ zip_path
        ++ "\nExpected a ZIP file, but got a directory or other type."))
      events := [] }
  else if !env.isZipfile then
    { result := .error (.valueError ("Invalid ZIP file: " ++ zip_path
        ++ "\nThe file exists but is not a valid ZIP archive.\nFile size: "
        ++ toString env.fileSize ++ " bytes"))
      events := [] }
  else
    match env.badZip with
    | none =>
      { result := .ok env.tempDirName
        events := [.mkdtempDir env.tempDirName] }
    | some cause =>
      { result := .error (.valueError ("Corrupted ZIP file: " ++ zip_path
          ++ "\nError: " ++ cause))
        events := [.mkdtempDir env.tempDirName, .rmtreeDir env.tempDirName] }

theorem exceptBind_ok {α β : Type} {x : Except String α} {f : α → Except String β} {b : β} :
    (x >>= f) = .ok b ↔ ∃ a, x = .ok a ∧ f a = .ok b := by
  cases x <;> simp [Bind.bind, Except.bind]

theorem pyGet_ok {v : Json} {k : String} {x : Json} (h : pyGet v k = .ok x) :
    v.isObj = true ∧ x = jget v k := by
  unfold pyGet at h
  split at h <;> simp_all

theorem pyGetD_ok {v : Json} {k : String} {d x : Json} (h : pyGetD v k d = .ok x) :
    v.isObj = true ∧ x = jgetD v k d := by
  unfold pyGetD at h
  split at h <;> simp_all

theorem pyIter_ok {v : Json} {l : List Json} (h : pyIter v = .ok l) :
    l = pyIterP v := by
  cases v <;> simp_all [pyIter]

theorem pyIn_ok {n : String} {v : Json} {b : Bool} (h : pyIn n v = .ok b) :
    b = pyInP n v := by
  cases v <;> simp_all [pyIn]

/-- Effectful map over Except, in order: the list of results when every
element succeeds, else the first error. -/
def mapME {α β : Type} (f : α → Except String β) : List α → Except String (List β)
  | [] => .ok []
  | x :: xs => do
    let y ← f x
    let ys ← mapME f xs
    .ok (y :: ys)

theorem processTables_ok : ∀ (ts : List Json) (out : List TableInfo × List MeasureInfo × Option DataSourceInfo),
    processTables ts = .ok out →
    (∀ t ∈ ts, t.isObj = true) ∧
    mapME mkTableInfoE (ts.filter keepTable) = .ok out.1 ∧
    out.2.1 = out.1.flatMap (fun ti => ti.measures) := by
  intro ts
  induction ts with
  | nil =>
    intro out h
    simp [processTables] at h
    subst h
    simp [mapME]
  | cons t rest ih =>
    intro out h
    simp only [processTables] at h
    rw [exceptBind_ok] at h
    obtain ⟨hid, hhid, h⟩ := h
    rw [exceptBind_ok] at h
    obtain ⟨priv, hpriv, h⟩ := h
    obtain ⟨hobj, hideq⟩ := pyGet_ok hhid
    obtain ⟨-, hpriveq⟩ := pyGet_ok hpriv
    subst hideq hpriveq
    have hkeep : keepTable t = !(pyTruthy (jget t "isHidden") || pyTruthy (jget t "isPrivate")) := rfl
    split at h
    · -- skipped table
      rename_i hcond
      obtain ⟨hall, hmap, hms⟩ := ih out h
      refine ⟨?_, ?_, hms⟩
      · intro x hx
        rcases List.mem_cons.mp hx with hx | hx
        · exact hx ▸ hobj
        · exact hall x hx
      · simpa [List.filter_cons, hkeep, hcond] using hmap
    · -- kept table
      rename_i hcond
      rw [exceptBind_ok] at h
      obtain ⟨ti, hti, h⟩ := h
      rw [exceptBind_ok] at h
      obtain ⟨partsL, hparts, h⟩ := h
      rw [exceptBind_ok] at h
      obtain ⟨ds, hds, h⟩ := h
      rw [exceptBind_ok] at h
      obtain ⟨recv, hrec, h⟩ := h
      obtain ⟨hall, hmap, hms⟩ := ih recv hrec
      have hout : out = (ti :: recv.1, ti.measures ++ recv.2.1, ds.orElse (fun _ => recv.2.2)) := by
        simpa using h.symm
      subst hout
      refine ⟨?_, ?_, ?_⟩
      · intro x hx
        rcases List.mem_cons.mp hx with hx | hx
        · exact hx ▸ hobj
        · exact hall x hx
      · have hkt : keepTable t = true := by
          rw [hkeep]
          simp only [Bool.not_eq_true] at hcond
          simp [hcond]
        simp only [List.filter_cons, hkt, if_pos, mapME]
        rw [exceptBind_ok]
        refine ⟨ti, hti, ?_⟩
        rw [exceptBind_ok]
        exact ⟨recv.1, hmap, rfl⟩
      · simp [hms]

theorem processRels_ok : ∀ (rl : List Json) (ris : List RelationshipInfo),
    processRels rl = .ok ris →
    (∀ r ∈ rl, r.isObj = true) ∧ ris = (rl.filter relKeptP).map mkRelInfo := by
  intro rl
  induction rl with
  | nil =>
    intro ris h
    simp [processRels] at h
    simp [h.symm]
  | cons r rest ih =>
    intro ris h
    simp only [processRels] at h
    rw [exceptBind_ok] at h
    obtain ⟨toT, htoT, h⟩ := h
    rw [exceptBind_ok] at h
    obtain ⟨isIn, hisIn, h⟩ := h
    obtain ⟨hobj, htoTeq⟩ := pyGet_ok htoT
    subst htoTeq
    have hkeq : relKeptP r = !isIn := by
      rw [pyIn_ok hisIn]; rfl
    split at h
    · rename_i hcond
      obtain ⟨hall, hmap⟩ := ih ris h
      refine ⟨?_, ?_⟩
      · intro x hx
        rcases List.mem_cons.mp hx with hx | hx
        · exact hx ▸ hobj
        · exact hall x hx
      · have : relKeptP r = false := by rw [hkeq, hcond]; rfl
        simpa [List.filter_cons, this] using hmap
    · rename_i hcond
      rw [exceptBind_ok] at h
      obtain ⟨rs, hrs, h⟩ := h
      obtain ⟨hall, hmap⟩ := ih rs hrs
      have hris : ris = mkRelInfo r :: rs := by simpa using h.symm
      have hkt : relKeptP r = true := by
        rw [hkeq]
        simp only [Bool.not_eq_true] at hcond
        simp [hcond]
      subst hris
      refine ⟨?_, ?_⟩
      · intro x hx
        rcases List.mem_cons.mp hx with hx | hx
        · exact hx ▸ hobj
        · exact hall x hx
      · simp [List.filter_cons, hkt, hmap]

theorem processHierList_ok : ∀ (tn : Json) (hl : List Json) (his : List HierarchyInfo),
    processHierList tn hl = .ok his →
    his = (hl.filter (fun h => !hasTemplateId h)).map (mkHierInfo tn) := by
  intro tn hl
  induction hl with
  | nil =>
    intro his h
    simp [processHierList] at h
    simp [h.symm]
  | cons hh rest ih =>
    intro his h
    simp only [processHierList] at h
    rw [exceptBind_ok] at h
    obtain ⟨annosJ, hannosJ, h⟩ := h
    rw [exceptBind_ok] at h
    obtain ⟨annos, hannos, h⟩ := h
    obtain ⟨hobj, hannosJeq⟩ := pyGetD_ok hannosJ
    subst hannosJeq
    have hanneq : annos = pyIterP (pyOr (jgetD hh "annotations" (.arr [])) (.arr [])) :=
      pyIter_ok hannos
    have htid : (annos.any (fun a => a.isObj && pyEqStr (jget a "name") "TemplateId")) = hasTemplateId hh := by
      rw [hanneq]; rfl
    split at h
    · rename_i hcond
      rw [htid] at hcond
      have := ih his h
      simpa [List.filter_cons, hcond] using this
    · rename_i hcond
      rw [htid] at hcond
      rw [exceptBind_ok] at h
      obtain ⟨lvls, hlvls, h⟩ := h
      rw [exceptBind_ok] at h
      obtain ⟨rs, hrs, h⟩ := h
      have hlvlseq : lvls = pyIterP (pyOr (jgetD hh "levels" (.arr [])) (.arr [])) :=
        pyIter_ok hlvls
      have hhis : his = mkHierInfo tn hh :: rs := by
        have : mkHierInfo tn hh =
            { name := jget hh "name", table := tn,
              levels := (lvls.filter Json.isObj).map (fun lvl => jget lvl "name") } := by
          rw [hlvlseq]; rfl
        rw [this]
        simpa using h.symm
      subst hhis
      have hcond2 : hasTemplateId hh = false := by
        simp only [Bool.not_eq_true] at hcond
        exact hcond
      simp [List.filter_cons, hcond2, ih rs hrs]

theorem processHiers_ok : ∀ (ts : List Json) (out : List HierarchyInfo),
    processHiers ts = .ok out →
    out = (ts.filter (fun t => !pyTruthy (jget t "isHidden"))).flatMap
      (fun t => ((pyIterP (pyOr (jgetD t "hierarchies" (.arr [])) (.arr []))).filter
        (fun h => !hasTemplateId h)).map (mkHierInfo (jget t "name"))) := by
  intro ts
  induction ts with
  | nil =>
    intro out h
    simp [processHiers] at h
    simp [h.symm]
  | cons t rest ih =>
    intro out h
    simp only [processHiers] at h
    rw [exceptBind_ok] at h
    obtain ⟨hid, hhid, h⟩ := h
    obtain ⟨hobj, hideq⟩ := pyGet_ok hhid
    subst hideq
    split at h
    · rename_i hcond
      have := ih out h
      simpa [List.filter_cons, hcond] using this
    · rename_i hcond
      rw [exceptBind_ok] at h
      obtain ⟨hl, hhl, h⟩ := h
      rw [exceptBind_ok] at h
      obtain ⟨his, hhis, h⟩ := h
      rw [exceptBind_ok] at h
      obtain ⟨rs, hrs, h⟩ := h
      have hout : out = his ++ rs := by simpa using h.symm
      subst hout
      have hhl2 : hl = pyIterP (pyOr (jgetD t "hierarchies" (.arr [])) (.arr [])) :=
        pyIter_ok hhl
      have hcond2 : pyTruthy (jget t "isHidden") = false := by
        simp only [Bool.not_eq_true] at hcond
        exact hcond
      rw [processHierList_ok (jget t "name") hl his hhis, hhl2, ih rs hrs]
      simp [List.filter_cons, hcond2]

theorem extract_spec {model : Json} {g : GradingInfo}
    (h : extract_grading_info model = .ok g) :
    model.isObj = true ∧
    (modelRootOf model).isObj = true ∧
    g.model_name = pyOr (jget model "name") (pyOr (jget (modelRootOf model) "name") (.str "Unknown")) ∧
    g.compatibility_level = pyOr (jget model "compatibilityLevel") (jget (modelRootOf model) "compatibilityLevel") ∧
    ∃ ts rls,
      pyIter (jgetD (modelRootOf model) "tables" (.arr [])) = .ok ts ∧
      pyIter (jgetD (modelRootOf model) "relationships" (.arr [])) = .ok rls ∧
      processTables ts = .ok (g.tables, g.measures, g.data_source) ∧
      processRels rls = .ok g.relationships ∧
      processHiers ts = .ok g.hierarchies ∧
      g.summary = (mainTableOf g.tables).map (fun mt => mkSummary mt g.measures g.relationships g.hierarchies) := by
  simp only [extract_grading_info] at h
  rw [exceptBind_ok] at h
  obtain ⟨mval, hmval, h⟩ := h
  obtain ⟨hmobj, hmvaleq⟩ := pyGet_ok hmval
  subst hmvaleq
  have hroot : (if (jget model "model").isObj then jget model "model" else model) = modelRootOf model := rfl
  rw [hroot] at h
  have hrootobj : (modelRootOf model).isObj = true := by
    unfold modelRootOf
    split
    · assumption
    · exact hmobj
  rw [exceptBind_ok] at h
  obtain ⟨nameRoot, hnameRoot, h⟩ := h
  rw [exceptBind_ok] at h
  obtain ⟨nameNested, hnameNested, h⟩ := h
  rw [exceptBind_ok] at h
  obtain ⟨compatRoot, hcompatRoot, h⟩ := h
  rw [exceptBind_ok] at h
  obtain ⟨compatNested, hcompatNested, h⟩ := h
  obtain ⟨-, hnameRooteq⟩ := pyGet_ok hnameRoot
  obtain ⟨-, hnameNestedeq⟩ := pyGet_ok hnameNested
  obtain ⟨-, hcompatRooteq⟩ := pyGet_ok hcompatRoot
  obtain ⟨-, hcompatNestedeq⟩ := pyGet_ok hcompatNested
  subst hnameRooteq hnameNestedeq hcompatRooteq hcompatNestedeq
  rw [if_pos hrootobj, if_pos hrootobj] at h
  rw [exceptBind_ok] at h
  obtain ⟨ts, hts, h⟩ := h
  rw [exceptBind_ok] at h
  obtain ⟨res, hres, h⟩ := h
  rw [exceptBind_ok] at h
  obtain ⟨rls, hrls, h⟩ := h
  rw [exceptBind_ok] at h
  obtain ⟨ris, hris, h⟩ := h
  rw [exceptBind_ok] at h
  obtain ⟨his, hhis, h⟩ := h
  have hg : g = { model_name := pyOr (jget model "name") (pyOr (jget (modelRootOf model) "name") (.str "Unknown"))
                  compatibility_level := pyOr (jget model "compatibilityLevel") (jget (modelRootOf model) "compatibilityLevel")
                  tables := res.1
                  measures := res.2.1
                  relationships := ris
                  hierarchies := his
                  data_source := res.2.2
                  summary := (mainTableOf res.1).map (fun mt => mkSummary mt res.2.1 ris his) } := by
    simpa using h.symm
  subst hg
  refine ⟨hmobj, hrootobj, rfl, rfl, ts, rls, hts, hrls, ?_, hris, hhis, rfl⟩
  simpa using hres

theorem listContains_append_left (n t s : List Char)
    (h : listContainsSublist n t = true) : listContainsSublist n (s ++ t) = true := by
  induction s with
  | nil => simpa using h
  | cons c cs ih =>
    simp only [List.cons_append, listContainsSublist, Bool.or_eq_true]
    exact Or.inr ih

theorem listContains_here (n post : List Char) : listContainsSublist n (n ++ post) = true := by
  cases n with
  | nil =>
    cases post <;> simp [listContainsSublist, List.isPrefixOf]
  | cons x xs =>
    simp only [List.cons_append, listContainsSublist, Bool.or_eq_true]
    left
    simp [ List.isPrefixOf_iff_prefix]

theorem strContains_sandwich (a b c : String) : strContains (a ++ b ++ c) b = true := by
  unfold strContains
  have h1 : (a ++ b ++ c).toList = a.toList ++ (b.toList ++ c.toList) := by
    show (a ++ b ++ c).data = a.data ++ (b.data ++ c.data)
    simp [String.data_append]
  rw [h1]
  exact listContains_append_left _ _ _ (listContains_here _ _)

theorem decodeUnits_ignore_total_aux :
    ∀ (n : Nat) (us : List Nat), us.length ≤ n →
      (decodeUnits .ignoreErrors us).isSome = true := by
  intro n
  induction n with
  | zero =>
    intro us h
    have : us = [] := List.eq_nil_of_length_eq_zero (Nat.le_zero.mp h)
    subst this
    rfl
  | succ n ih =>
    intro us h
    cases us with
    | nil => rfl
    | cons u rest0 =>
      cases rest0 with
      | nil =>
        simp only [decodeUnits]
        split
        · rfl
        · rfl
      | cons v rest =>
        simp only [decodeUnits]
        have h1 : (v :: rest).length ≤ n := Nat.le_of_succ_le_succ h
        have h2 : rest.length ≤ n := Nat.le_of_succ_le h1
        split
        · simpa [Option.isSome_map] using ih (v :: rest) h1
        · split
          · simpa [Option.isSome_map] using ih rest h2
          · simpa [Option.isSome_map] using ih (v :: rest) h1

theorem decodeUnits_ignore_total (us : List Nat) :
    (decodeUnits .ignoreErrors us).isSome = true :=
  decodeUnits_ignore_total_aux us.length us (Nat.le_refl _)

theorem decodeUtf16le_ignore_total (bs : List Nat) :
    (decodeUtf16le .ignoreErrors bs).isSome = true := by
  cases hu : decodeUnits .ignoreErrors (unitsLE bs).1 with
  | none =>
    have := decodeUnits_ignore_total (unitsLE bs).1
    rw [hu] at this
    simp at this
  | some cs =>
    unfold decodeUtf16le
    rw [hu]
    split
    · rename_i heq
      exact Option.noConfusion heq
    · rename_i cs2 heq
      split <;> rfl

/-- C2: for every parsed schema tree on which extraction succeeds, the
tables sequence is exactly the processed image, in source order, of the
source tables whose isHidden and isPrivate are both falsy; a table with a
truthy flag is therefore absent, and since the flattened measures list is
the concatenation of the measures of the kept tables, none of its
measures appear there either. -/
theorem extract_hidden_private_tables_absent (model : Json) (g : GradingInfo)
    (h : extract_grading_info model = .ok g) :
    ∃ ts, pyIter (jgetD (modelRootOf model) "tables" (.arr [])) = .ok ts ∧
      mapME mkTableInfoE (ts.filter keepTable) = .ok g.tables ∧
      g.measures = g.tables.flatMap (fun ti => ti.measures) := by
  obtain ⟨-, -, -, -, ts, rls, hts, -, hpt, -, -, -⟩ := extract_spec h
  obtain ⟨-, hmap, hms⟩ := processTables_ok ts _ hpt
  exact ⟨ts, hts, hmap, hms⟩

/-- C3: for every parsed schema tree on which extraction succeeds, the
relationships sequence is exactly, in source order, the rendered form of
the source relationships whose coalesced toTable value does not contain
LocalDateTable; for a string-valued toTable the test is the plain
case-sensitive substring test, anywhere in the name. -/
theorem extract_relationships_localdatetable (model : Json) (g : GradingInfo)
    (h : extract_grading_info model = .ok g) :
    ∃ rls, pyIter (jgetD (modelRootOf model) "relationships" (.arr [])) = .ok rls ∧
      g.relationships = (rls.filter relKeptP).map mkRelInfo ∧
      ∀ (r : Json) (s : String), jget r "toTable" = .str s →
        relKeptP r = !strContains s "LocalDateTable" := by
  obtain ⟨-, -, -, -, ts, rls, -, hrls, -, hpr, -, -⟩ := extract_spec h
  obtain ⟨-, hmap⟩ := processRels_ok rls _ hpr
  refine ⟨rls, hrls, hmap, ?_⟩
  intro r s hr
  unfold relKeptP
  rw [hr]
  by_cases hs : s = ""
  · subst hs
    rfl
  · have : pyOr (.str s) (.str "") = .str s := by
      simp [pyOr, pyTruthy, hs]
    rw [this]
    rfl

/-- C8: for every parsed schema tree on which extraction succeeds, the
hierarchies sequence is drawn exactly from the tables whose isHidden is
falsy (isPrivate is not consulted, so a merely private table is still
scanned), and within a scanned table exactly the hierarchies without a
TemplateId annotation entry survive, in source order. -/
theorem extract_hierarchy_scan (model : Json) (g : GradingInfo)
    (h : extract_grading_info model = .ok g) :
    ∃ ts, pyIter (jgetD (modelRootOf model) "tables" (.arr [])) = .ok ts ∧
      g.hierarchies = (ts.filter (fun t => !pyTruthy (jget t "isHidden"))).flatMap
        (fun t => ((pyIterP (pyOr (jgetD t "hierarchies" (.arr [])) (.arr []))).filter
          (fun hh => !hasTemplateId hh)).map (mkHierInfo (jget t "name"))) := by
  obtain ⟨-, -, -, -, ts, rls, hts, -, -, -, hph, -⟩ := extract_spec h
  exact ⟨ts, hts, processHiers_ok ts _ hph⟩

/-- C10: model name and compatibility level are resolved with Python
or-coalescing, so a present-but-falsy name (such as the empty string) at
both the root and the nested model yields the sentinel Unknown, and a
falsy root compatibilityLevel (such as 0) is overridden by the nested
model value whatever it is. -/
theorem extract_falsy_identity_fields (model : Json) (g : GradingInfo)
    (h : extract_grading_info model = .ok g) :
    (pyTruthy (jget model "name") = false →
      pyTruthy (jget (modelRootOf model) "name") = false →
      g.model_name = .str "Unknown") ∧
    (pyTruthy (jget model "compatibilityLevel") = false →
      g.compatibility_level = jget (modelRootOf model) "compatibilityLevel") := by
  obtain ⟨-, -, hname, hcompat, -⟩ := extract_spec h
  constructor
  · intro h1 h2
    rw [hname]
    simp [pyOr, h1, h2]
  · intro h1
    rw [hcompat]
    simp [pyOr, h1]

theorem nameYoY_iff (n : Json) :
    ((match n with | .str s => strContains s "YoY" | _ => false) = true) ↔
    ∃ nm, n = Json.str nm ∧ strContains nm "YoY" = true := by
  cases n <;> simp

/-- C4: for every parsed schema tree on which extraction succeeds, the
summary main table is the kept table literally named Sheet1 when one
exists, else the first kept table, else absent (summary stays empty); and
whenever a main table exists, total_columns is the visible column count
of exactly that table. -/
theorem extract_main_table_selection (model : Json) (g : GradingInfo)
    (h : extract_grading_info model = .ok g) :
    (g.tables = [] → g.summary = none) ∧
    (g.tables ≠ [] → ∃ mt, mainTableOf g.tables = some mt ∧
      mt ∈ g.tables ∧
      (pyEqStr mt.name "Sheet1" = true ∨
        ((∀ t ∈ g.tables, pyEqStr t.name "Sheet1" = false) ∧ g.tables.head? = some mt)) ∧
      g.summary = some (mkSummary mt g.measures g.relationships g.hierarchies) ∧
      (mkSummary mt g.measures g.relationships g.hierarchies).total_columns = mt.columns.length) := by
  obtain ⟨-, -, -, -, ts, rls, -, -, -, -, -, hsum⟩ := extract_spec h
  constructor
  · intro he
    rw [hsum, he]
    rfl
  · intro hne
    cases hf : g.tables.find? (fun t => pyEqStr t.name "Sheet1") with
    | some mt =>
      have hmain : mainTableOf g.tables = some mt := by
        simp [mainTableOf, hf, Option.orElse]
      have hp : pyEqStr mt.name "Sheet1" = true := by
        have := List.find?_some hf
        simpa using this
      refine ⟨mt, hmain, List.mem_of_find?_eq_some hf, Or.inl hp, ?_, rfl⟩
      rw [hsum, hmain]
      rfl
    | none =>
      cases hgt : g.tables with
      | nil => exact absurd hgt hne
      | cons a l =>
        have hf2 := hf
        rw [hgt] at hf2
        have hmain : mainTableOf (a :: l) = some a := by
          simp [mainTableOf, hf2, Option.orElse]
        refine ⟨a, hmain, List.mem_cons_self a l, Or.inr ⟨?_, rfl⟩, ?_, rfl⟩
        · intro t ht
          have := List.find?_eq_none.mp hf2 t ht
          simpa using this
        · rw [hsum, hgt, hmain]
          rfl

/-- C5: for every parsed schema tree on which extraction succeeds with at
least one kept table, the summary exists and has_time_intelligence is the
boolean OR over all flattened measures of (expression contains
SAMEPERIODLASTYEAR) or (string name contains YoY), both case-sensitive
substring tests; in particular it is true once some measure is named
Sales YoY (even with an empty expression) and true once some measure
expression contains SAMEPERIODLASTYEAR (whatever its name). -/
theorem extract_time_intelligence (model : Json) (g : GradingInfo)
    (h : extract_grading_info model = .ok g) (hne : g.tables ≠ []) :
    ∃ s, g.summary = some s ∧
      (s.has_time_intelligence = true ↔ ∃ m ∈ g.measures,
        strContains m.expression "SAMEPERIODLASTYEAR" = true ∨
        ∃ nm, m.name = Json.str nm ∧ strContains nm "YoY" = true) ∧
      (∀ m ∈ g.measures, m.name = Json.str "Sales YoY" → s.has_time_intelligence = true) ∧
      (∀ m ∈ g.measures, strContains m.expression "SAMEPERIODLASTYEAR" = true →
        s.has_time_intelligence = true) := by
  obtain ⟨-, -, -, -, ts, rls, -, -, -, -, -, hsum⟩ := extract_spec h
  have hmain : ∃ mt, mainTableOf g.tables = some mt := by
    cases hf : g.tables.find? (fun t => pyEqStr t.name "Sheet1") with
    | some mt => exact ⟨mt, by simp [mainTableOf, hf, Option.orElse]⟩
    | none =>
      cases hgt : g.tables with
      | nil => exact absurd hgt hne
      | cons a l =>
        have hf2 := hf
        rw [hgt] at hf2
        exact ⟨a, by simp [mainTableOf, hf2, Option.orElse]⟩
  obtain ⟨mt, hmt⟩ := hmain
  refine ⟨mkSummary mt g.measures g.relationships g.hierarchies, by rw [hsum, hmt]; rfl, ?_, ?_, ?_⟩
  · show hasTimeIntel g.measures = true ↔ _
    unfold hasTimeIntel
    rw [List.any_eq_true]
    simp only [Bool.or_eq_true, nameYoY_iff]
  · intro m hm hname
    show hasTimeIntel g.measures = true
    unfold hasTimeIntel
    rw [List.any_eq_true]
    refine ⟨m, hm, ?_⟩
    rw [hname]
    have hyoy : strContains "Sales YoY" "YoY" = true := by rfl
    simp [hyoy]
  · intro m hm hexpr
    show hasTimeIntel g.measures = true
    unfold hasTimeIntel
    rw [List.any_eq_true]
    exact ⟨m, hm, by simp [hexpr]⟩

/-- C1 counterexample: on the byte sequence 00 D8 (a lone UTF-16 high
surrogate, no byte order mark) the first decode raises, the fallback is
taken, and its output is empty: the undecodable sequence is dropped, not
replaced by a placeholder character (which errors replace would have
produced). -/
theorem pbit_decode_no_placeholder :
    decodeUtf16Strict [0x00, 0xD8] = none ∧
    decodeUtf16le .strict [0x00, 0xD8] = none ∧
    pbitDecodeBytes [0x00, 0xD8] = some [] ∧
    decodeUtf16le .ignoreErrors [0x00, 0xD8] = some [] ∧
    decodeUtf16le .replaceErrors [0x00, 0xD8] = some [0xFFFD] ∧
    ¬ (0xFFFD ∈ ([] : List Nat)) := by
  refine ⟨rfl, rfl, rfl, rfl, rfl, by simp⟩

/-- C1 (amended): when decoding the schema bytes as UTF-16 raises, the
retry decodes as UTF-16 little-endian with errors ignore, which never
raises on any byte string (undecodable sequences are dropped rather than
replaced by a placeholder). -/
theorem pbit_decode_fallback_total (bs : List Nat)
    (h : decodeUtf16Strict bs = none) :
    pbitDecodeBytes bs = decodeUtf16le .ignoreErrors bs ∧
    ∀ bs2 : List Nat, (decodeUtf16le .ignoreErrors bs2).isSome = true := by
  constructor
  · unfold pbitDecodeBytes
    rw [h]
  · exact decodeUtf16le_ignore_total

/-- Witness for the C1 amended theorem at the byte sequence 00 D8. -/
theorem pbit_decode_fallback_total_witness :
    pbitDecodeBytes [0x00, 0xD8] = decodeUtf16le .ignoreErrors [0x00, 0xD8] ∧
    ∀ bs2 : List Nat, (decodeUtf16le .ignoreErrors bs2).isSome = true :=
  pbit_decode_fallback_total [0x00, 0xD8] rfl

/-- C6: whenever the input passes the existence, file and zipfile checks
and extraction then fails with BadZipFile, the ephemeral directory is
created and then removed before the ValueError is raised, and the error
message contains both the original input path and the underlying cause. -/
theorem extract_zip_cleanup_on_corrupt (zip_path : String) (env : ZipEnv) (cause : String)
    (h1 : env.pathExists = true) (h2 : env.isFile = true) (h3 : env.isZipfile = true)
    (h4 : env.badZip = some cause) :
    (extract_zip_to_temp zip_path env).events =
      [.mkdtempDir env.tempDirName, .rmtreeDir env.tempDirName] ∧
    (extract_zip_to_temp zip_path env).result =
      .error (.valueError ("Corrupted ZIP file: " ++ zip_path ++ "\nError: " ++ cause)) ∧
    strContains ("Corrupted ZIP file: " ++ zip_path ++ "\nError: " ++ cause) zip_path = true ∧
    strContains ("Corrupted ZIP file: " ++ zip_path ++ "\nError: " ++ cause) cause = true := by
  have hrun : extract_zip_to_temp zip_path env =
      { result := .error (.valueError ("Corrupted ZIP file: " ++ zip_path ++ "\nError: " ++ cause))
        events := [.mkdtempDir env.tempDirName, .rmtreeDir env.tempDirName] } := by
    simp [extract_zip_to_temp, h1, h2, h3, h4]
  refine ⟨by rw [hrun], by rw [hrun], ?_, ?_⟩
  · have hshape : "Corrupted ZIP file: " ++ zip_path ++ "\nError: " ++ cause =
        "Corrupted ZIP file: " ++ zip_path ++ ("\nError: " ++ cause) :=
      String.append_assoc _ _ _
    rw [hshape]
    exact strContains_sandwich _ _ _
  · have := strContains_sandwich ("Corrupted ZIP file: " ++ zip_path ++ "\nError: ") cause ""
    rwa [String.append_empty] at this

/-- Witness for C6 at a concrete corrupt-archive environment. -/
theorem extract_zip_cleanup_on_corrupt_witness :
    (extract_zip_to_temp "submission.zip"
      { resolved := "/work/submission.zip", cwd := "/work", pathExists := true,
        isFile := true, isZipfile := true, fileSize := 123,
        tempDirName := "/tmp/powerbi_submission_x1", badZip := some "Bad magic number for file header" }).events =
      [.mkdtempDir "/tmp/powerbi_submission_x1", .rmtreeDir "/tmp/powerbi_submission_x1"] ∧
    (extract_zip_to_temp "submission.zip"
      { resolved := "/work/submission.zip", cwd := "/work", pathExists := true,
        isFile := true, isZipfile := true, fileSize := 123,
        tempDirName := "/tmp/powerbi_submission_x1", badZip := some "Bad magic number for file header" }).result =
      .error (.valueError ("Corrupted ZIP file: " ++ "submission.zip" ++ "\nError: " ++ "Bad magic number for file header")) ∧
    strContains ("Corrupted ZIP file: " ++ "submission.zip" ++ "\nError: " ++ "Bad magic number for file header") "submission.zip" = true ∧
    strContains ("Corrupted ZIP file: " ++ "submission.zip" ++ "\nError: " ++ "Bad magic number for file header") "Bad magic number for file header" = true :=
  extract_zip_cleanup_on_corrupt "submission.zip" _ "Bad magic number for file header" rfl rfl rfl rfl

/-- C7: rendering an empty GradingInfo (no tables, no measures, no
relationships, no hierarchies, no data source, empty summary) never
raises and yields exactly the fixed sections in order, with an empty
Tables section and the literal none markers for relationships and
hierarchies; the containment facts are stated on the concrete instance
extraction produces for an empty tree. -/
theorem generate_report_empty_grading_info :
    (∀ nm cl : Json, generate_grading_report
        { model_name := nm, compatibility_level := cl, tables := [], measures := [],
          relationships := [], hierarchies := [], data_source := none, summary := none } =
      .ok (strJoin "\n"
        ["Model: " ++ pyStr nm, "Compatibility Level: " ++ pyStr cl, "",
         "Tables:", "Measures (details):",
         "Relationships:", "  none", "",
         "Hierarchies:", "  none", "", "Summary:"])) ∧
    generate_grading_report
        { model_name := .str "Unknown", compatibility_level := .null, tables := [], measures := [],
          relationships := [], hierarchies := [], data_source := none, summary := none } =
      .ok "Model: Unknown\nCompatibility Level: None\n\nTables:\nMeasures (details):\nRelationships:\n  none\n\nHierarchies:\n  none\n\nSummary:" ∧
    strContains "Model: Unknown\nCompatibility Level: None\n\nTables:\nMeasures (details):\nRelationships:\n  none\n\nHierarchies:\n  none\n\nSummary:" "Relationships:\n  none" = true ∧
    strContains "Model: Unknown\nCompatibility Level: None\n\nTables:\nMeasures (details):\nRelationships:\n  none\n\nHierarchies:\n  none\n\nSummary:" "Hierarchies:\n  none" = true ∧
    strContains "Model: Unknown\nCompatibility Level: None\n\nTables:\nMeasures (details):\nRelationships:\n  none\n\nHierarchies:\n  none\n\nSummary:" "Tables:\nMeasures (details):" = true := by
  refine ⟨fun nm cl => rfl, rfl, ?_, ?_, ?_⟩ <;> rfl

/-- A concrete parsed schema tree exercising the filters: falsy name and
compatibilityLevel at the root, a nested model, hidden columns, a hidden
and a private table with measures and hierarchies, a TemplateId
hierarchy, and a relationship whose target contains LocalDateTable in
the middle of the name. -/
def cModel : Json := .obj [
  ("name", .str ""),
  ("compatibilityLevel", .num 0),
  ("model", .obj [
    ("name", .str ""),
    ("compatibilityLevel", .num 1600),
    ("tables", .arr [
      .obj [("name", .str "Other"),
            ("columns", .arr [.obj [("name", .str "A"), ("dataType", .str "string")],
                              .obj [("name", .str "H"), ("isHidden", .bool true)]]),
            ("measures", .arr [.obj [("name", .str "Sales YoY"), ("expression", .str "")]]),
            ("hierarchies", .arr [
               .obj [("name", .str "Good"), ("levels", .arr [.obj [("name", .str "L1")], .str "junk"])],
               .obj [("name", .str "Boiler"), ("annotations", .arr [.obj [("name", .str "TemplateId")]])]])],
      .obj [("name", .str "Sheet1"),
            ("columns", .arr [.obj [("name", .str "C1")], .obj [("name", .str "C2")], .obj [("name", .str "C3")]]),
            ("measures", .arr [.obj [("name", .str "Total"),
              ("expression", .arr [.str "CALCULATE(", .str "  SAMEPERIODLASTYEAR(Dates[Date])", .str "", .str ")"])]])],
      .obj [("name", .str "HiddenT"), ("isHidden", .bool true),
            ("measures", .arr [.obj [("name", .str "Secret")]]),
            ("hierarchies", .arr [.obj [("name", .str "HidHier")]])],
      .obj [("name", .str "PrivT"), ("isPrivate", .num 1),
            ("measures", .arr [.obj [("name", .str "PrivM")]]),
            ("hierarchies", .arr [.obj [("name", .str "PrivHier"), ("levels", .arr [.obj [("name", .str "P1")]])]])]
    ]),
    ("relationships", .arr [
      .obj [("fromTable", .str "Other"), ("fromColumn", .str "A"),
            ("toTable", .str "AbcLocalDateTableXyz"), ("toColumn", .str "Date")],
      .obj [("fromTable", .str "Sheet1"), ("fromColumn", .str "C1"),
            ("toTable", .str "Other"), ("toColumn", .str "A"),
            ("joinOnDateBehavior", .str "datePartOnly")]
    ])
  ])]

/-- The grading record extraction produces on cModel. -/
def cG : GradingInfo :=
  { model_name := .str "Unknown"
    compatibility_level := .num 1600
    tables := [
      { name := .str "Other"
        columns := [{ name := .str "A", data_type := .str "string", summarize_by := .null, is_calculated := false }]
        measures := [{ name := .str "Sales YoY", expression := "", table := .str "Other" }] },
      { name := .str "Sheet1"
        columns := [{ name := .str "C1", data_type := .null, summarize_by := .null, is_calculated := false },
                    { name := .str "C2", data_type := .null, summarize_by := .null, is_calculated := false },
                    { name := .str "C3", data_type := .null, summarize_by := .null, is_calculated := false }]
        measures := [{ name := .str "Total",
                       expression := "CALCULATE(\n  SAMEPERIODLASTYEAR(Dates[Date])\n)",
                       table := .str "Sheet1" }] }]
    measures := [{ name := .str "Sales YoY", expression := "", table := .str "Other" },
                 { name := .str "Total",
                   expression := "CALCULATE(\n  SAMEPERIODLASTYEAR(Dates[Date])\n)",
                   table := .str "Sheet1" }]
    relationships := [{ fromStr := "Sheet1[C1]", toStr := "Other[A]", relType := .str "datePartOnly" }]
    hierarchies := [{ name := .str "Good", table := .str "Other", levels := [.str "L1"] },
                    { name := .str "PrivHier", table := .str "PrivT", levels := [.str "P1"] }]
    data_source := none
    summary := some { main_table := .str "Sheet1", total_columns := 3, total_measures := 2,
                      total_relationships := 1, total_hierarchies := 2, has_time_intelligence := true } }

/-- Witness for C2 on cModel, whose table list holds a hidden and a
private table with measures. -/
theorem extract_hidden_private_tables_absent_witness :
    ∃ ts, pyIter (jgetD (modelRootOf cModel) "tables" (.arr [])) = .ok ts ∧
      mapME mkTableInfoE (ts.filter keepTable) = .ok cG.tables ∧
      cG.measures = cG.tables.flatMap (fun ti => ti.measures) :=
  extract_hidden_private_tables_absent cModel cG rfl

/-- Witness for C3 on cModel, whose first relationship targets a table
with LocalDateTable in the middle of the name. -/
theorem extract_relationships_localdatetable_witness :
    ∃ rls, pyIter (jgetD (modelRootOf cModel) "relationships" (.arr [])) = .ok rls ∧
      cG.relationships = (rls.filter relKeptP).map mkRelInfo ∧
      ∀ (r : Json) (s : String), jget r "toTable" = .str s →
        relKeptP r = !strContains s "LocalDateTable" :=
  extract_relationships_localdatetable cModel cG rfl

/-- Witness for C4 on cModel, whose second kept table is named Sheet1
and has three visible columns. -/
theorem extract_main_table_selection_witness :
    (cG.tables = [] → cG.summary = none) ∧
    (cG.tables ≠ [] → ∃ mt, mainTableOf cG.tables = some mt ∧
      mt ∈ cG.tables ∧
      (pyEqStr mt.name "Sheet1" = true ∨
        ((∀ t ∈ cG.tables, pyEqStr t.name "Sheet1" = false) ∧ cG.tables.head? = some mt)) ∧
      cG.summary = some (mkSummary mt cG.measures cG.relationships cG.hierarchies) ∧
      (mkSummary mt cG.measures cG.relationships cG.hierarchies).total_columns = mt.columns.length) :=
  extract_main_table_selection cModel cG rfl

/-- Witness for C5 on cModel, which has a measure named Sales YoY with an
empty expression and a generically named measure whose expression
contains SAMEPERIODLASTYEAR. -/
theorem extract_time_intelligence_witness :
    ∃ s, cG.summary = some s ∧
      (s.has_time_intelligence = true ↔ ∃ m ∈ cG.measures,
        strContains m.expression "SAMEPERIODLASTYEAR" = true ∨
        ∃ nm, m.name = Json.str nm ∧ strContains nm "YoY" = true) ∧
      (∀ m ∈ cG.measures, m.name = Json.str "Sales YoY" → s.has_time_intelligence = true) ∧
      (∀ m ∈ cG.measures, strContains m.expression "SAMEPERIODLASTYEAR" = true →
        s.has_time_intelligence = true) :=
  extract_time_intelligence cModel cG rfl (List.cons_ne_nil _ _)

/-- Witness for C8 on cModel, whose private (but not hidden) table
contributes a hierarchy while the hidden table and the TemplateId
hierarchy do not. -/
theorem extract_hierarchy_scan_witness :
    ∃ ts, pyIter (jgetD (modelRootOf cModel) "tables" (.arr [])) = .ok ts ∧
      cG.hierarchies = (ts.filter (fun t => !pyTruthy (jget t "isHidden"))).flatMap
        (fun t => ((pyIterP (pyOr (jgetD t "hierarchies" (.arr [])) (.arr []))).filter
          (fun hh => !hasTemplateId hh)).map (mkHierInfo (jget t "name"))) :=
  extract_hierarchy_scan cModel cG rfl

/-- Witness for C10 on cModel: the empty name at root and nested model
yields Unknown, and the zero root compatibilityLevel is overridden by the
nested 1600. -/
theorem extract_falsy_identity_fields_witness :
    cG.model_name = Json.str "Unknown" ∧ cG.compatibility_level = Json.num 1600 := by
  have h := extract_falsy_identity_fields cModel cG rfl
  exact ⟨h.1 rfl rfl, by rw [h.2 rfl]; rfl⟩

/-- Heap cell of the mutable-object model of the Python runtime used for
the frame property of extract_grading_info: container cells hold the
addresses of their elements, so aliasing and in-place mutation are
expressible. -/
inductive HVal where
  | null : HVal
  | bool : Bool → HVal
  | num : Int → HVal
  | str : String → HVal
  | arr : List Nat → HVal
  | obj : List (String × Nat) → HVal
  deriving DecidableEq

/-- Memory: newest binding first; a write shadows older bindings of the
same address. -/
def HMem : Type := List (Nat × HVal)

/-- The current value stored at an address. -/
def hLookup (m : HMem) (a : Nat) : Option HVal :=
  (m.find? (fun kv => kv.1 == a)).map (fun kv => kv.2)

/-- Machine state: the next fresh address and the memory. -/
structure HSt where
  next : Nat
  mem : HMem

/-- Heap computations: state passing with Python exceptions. -/
def HM (α : Type) : Type := HSt → Except String (α × HSt)

/-- Return without touching the heap. -/
def hPure {α : Type} (x : α) : HM α := fun s => .ok (x, s)

/-- Sequencing of heap computations. -/
def hBind {α β : Type} (m : HM α) (f : α → HM β) : HM β := fun s =>
  match m s with
  | .error e => .error e
  | .ok (x, s2) => f x s2

instance : Monad HM where
  pure := hPure
  bind := hBind

/-- Raise a Python exception. -/
def hFail {α : Type} (e : String) : HM α := fun _ => .error e

/-- Allocate a fresh cell and return its address. -/
def hAlloc (v : HVal) : HM Nat := fun s =>
  .ok (s.next, ⟨s.next + 1, (s.next, v) :: s.mem⟩)

/-- Read the cell at an address. -/
def hRead (a : Nat) : HM HVal := fun s =>
  match hLookup s.mem a with
  | some v => .ok (v, s)
  | none => .error "invalid address"

/-- Overwrite the cell at an address; never allocates. -/
def hWrite (a : Nat) (v : HVal) : HM Unit := fun s =>
  .ok ((), ⟨s.next, (a, v) :: s.mem⟩)

/-- list.append(x): in-place extension of the list cell. -/
def hAppend (a x : Nat) : HM Unit := do
  let v ← hRead a
  match v with
  | .arr es => hWrite a (.arr (es ++ [x]))
  | _ => hFail "TypeError: append on a non-list"

/-- Store a value under a key, replacing an existing binding. -/
def setKey : List (String × Nat) → String → Nat → List (String × Nat)
  | [], k, x => [(k, x)]
  | (k2, v2) :: rest, k, x =>
    if k2 == k then (k, x) :: rest else (k2, v2) :: setKey rest k x

/-- d[k] = x: in-place update of the dict cell. -/
def hDictSet (a : Nat) (k : String) (x : Nat) : HM Unit := do
  let v ← hRead a
  match v with
  | .obj fs => hWrite a (.obj (setKey fs k x))
  | _ => hFail "TypeError: item assignment on a non-dict"

/-- d.get(k): the stored address, or the None address 0 when absent;
AttributeError on a non-dict receiver. -/
def hGet (a : Nat) (k : String) : HM Nat := do
  let v ← hRead a
  match v with
  | .obj fs => hPure (((fs.find? (fun kv => kv.1 == k)).map (fun kv => kv.2)).getD 0)
  | _ => hFail "AttributeError: object has no attribute get"

/-- d.get(k, dflt) with the default already evaluated to an address. -/
def hGetD (a : Nat) (k : String) (d : Nat) : HM Nat := do
  let v ← hRead a
  match v with
  | .obj fs => hPure (((fs.find? (fun kv => kv.1 == k)).map (fun kv => kv.2)).getD d)
  | _ => hFail "AttributeError: object has no attribute get"

/-- Python truthiness of the value at an address. -/
def hTruthy (a : Nat) : HM Bool := do
  let v ← hRead a
  hPure (match v with
    | .null => false
    | .bool b => b
    | .num n => n != 0
    | .str s => s != ""
    | .arr es => !es.isEmpty
    | .obj fs => !fs.isEmpty)

/-- isinstance(v, dict) at an address. -/
def hIsObj (a : Nat) : HM Bool := do
  let v ← hRead a
  hPure (match v with | .obj _ => true | _ => false)

/-- Python equality of the value at an address against a string literal. -/
def hEqStr (a : Nat) (lit : String) : HM Bool := do
  let v ← hRead a
  hPure (match v with | .str s => s == lit | _ => false)

/-- Allocate fresh one-character strings, as iterating a string does. -/
def hAllocStrs : List String → HM (List Nat)
  | [] => hPure []
  | c :: rest => do
    let a ← hAlloc (.str c)
    let as ← hAllocStrs rest
    hPure (a :: as)

/-- for x in v at an address: list elements, fresh character strings, or
fresh key strings; TypeError otherwise. -/
def hIter (a : Nat) : HM (List Nat) := do
  let v ← hRead a
  match v with
  | .arr es => hPure es
  | .str s => hAllocStrs (s.toList.map (fun c => String.singleton c))
  | .obj fs => hAllocStrs (fs.map (fun kv => kv.1))
  | _ => hFail "TypeError: object is not iterable"

/-- Element-wise Python equality of list members against a string
literal, short-circuiting as the in operator does. -/
def hAnyEqStr : List Nat → String → HM Bool
  | [], _ => hPure false
  | e :: rest, needle => do
    let b ← hEqStr e needle
    if b then hPure true else hAnyEqStr rest needle

/-- needle in v for the value at an address. -/
def hIn (needle : String) (a : Nat) : HM Bool := do
  let v ← hRead a
  match v with
  | .str s => hPure (strContains s needle)
  | .arr es => hAnyEqStr es needle
  | .obj fs => hPure (fs.any (fun kv => kv.1 == needle))
  | _ => hFail "TypeError: argument is not a container"

/-- repr of the cells at a list of addresses; the fuel bounds the walk of
the object graph (the analogue of the Python recursion limit). -/
def hReprMany : Nat → List Nat → HM (List String)
  | 0, _ => hFail "RecursionError"
  | _ + 1, [] => hPure []
  | fuel + 1, a :: rest => do
    let v ← hRead a
    let p ←
      match v with
      | .null => hPure "None"
      | .bool b => hPure (if b then "True" else "False")
      | .num n => hPure (toString n)
      | .str s => hPure (squote ++ s ++ squote)
      | .arr es => do
        let ps ← hReprMany fuel es
        hPure ("[" ++ strJoin ", " ps ++ "]")
      | .obj fs => do
        let ps ← hReprMany fuel (fs.map (fun kv => kv.2))
        hPure ("\x7b" ++ strJoin ", "
          ((fs.map (fun kv => kv.1)).zipWith (fun k p => squote ++ k ++ squote ++ ": " ++ p) ps)
          ++ "\x7d")
    let ps ← hReprMany fuel rest
    hPure (p :: ps)

/-- str(v) at an address, as f-strings evaluate it. -/
def hStrOf (fuel : Nat) (a : Nat) : HM String := do
  let v ← hRead a
  match v with
  | .null => hPure "None"
  | .bool b => hPure (if b then "True" else "False")
  | .num n => hPure (toString n)
  | .str s => hPure s
  | .arr _ => do
    let ps ← hReprMany fuel [a]
    hPure (strJoin "" ps)
  | .obj _ => do
    let ps ← hReprMany fuel [a]
    hPure (strJoin "" ps)

/-- sep.join over addresses; TypeError when an element is not a string. -/
def hJoinStrsAddrs (sep : String) : List Nat → HM String
  | [] => hPure ""
  | [e] => do
    let v ← hRead e
    match v with
    | .str s => hPure s
    | _ => hFail "TypeError: sequence item: expected str instance"
  | e :: e2 :: rest => do
    let v ← hRead e
    match v with
    | .str s => do
      let r ← hJoinStrsAddrs sep (e2 :: rest)
      hPure (s ++ sep ++ r)
    | _ => hFail "TypeError: sequence item: expected str instance"

/-- len(v) at an address. -/
def hLen (a : Nat) : HM Nat := do
  let v ← hRead a
  match v with
  | .arr es => hPure es.length
  | .str s => hPure s.length
  | .obj fs => hPure fs.length
  | _ => hFail "TypeError: object has no len"

/-- Python x or <literal>: keep the truthy value, else allocate the
fallback literal freshly, as evaluating the literal does. -/
def hCoalesce (b : Bool) (a : Nat) (v : HVal) : HM Nat :=
  if b then hPure a else hAlloc v

/-- Conditional lookup with an already evaluated default, used for the
isinstance-guarded dict lookups. -/
def hGetDIf (b : Bool) (a : Nat) (k : String) (d : Nat) : HM Nat :=
  if b then hGetD a k d else hPure d

/-- Column loop of one table at heap level (processor.py lines 122-130):
builds fresh column dicts and appends them to the fresh columns list. -/
def hColLoop : List Nat → Nat → HM Unit
  | [], _ => hPure ()
  | c :: rest, colsArr => do
    let hid ← hGet c "isHidden"
    let b ← hTruthy hid
    if b then hColLoop rest colsArr
    else do
      let nm ← hGet c "name"
      let dt ← hGet c "dataType"
      let sb ← hGet c "summarizeBy"
      let ty ← hGet c "type"
      let isCalc ← hEqStr ty "calculated"
      let calcA ← hAlloc (.bool isCalc)
      let ci ← hAlloc (.obj [("name", nm), ("data_type", dt), ("summarize_by", sb),
        ("is_calculated", calcA)])
      hAppend colsArr ci
      hColLoop rest colsArr

/-- Read the string members with non-blank content out of an expression
line list (processor.py line 135); reads only. -/
def hReadStrParts : List Nat → HM (List String)
  | [] => hPure []
  | e :: rest => do
    let v ← hRead e
    let ps ← hReadStrParts rest
    match v with
    | .str s => if pyStrip s != "" then hPure (s :: ps) else hPure ps
    | _ => hPure ps

/-- Measure loop of one table at heap level (processor.py lines 132-146):
each fresh measure dict is appended both to the table measures list and
to the global measures list (shared, as in the source). -/
def hMeasureLoop : List Nat → Nat → Nat → Nat → HM Unit
  | [], _, _, _ => hPure ()
  | m :: rest, tname, msArr, gMeasures => do
    let emptyE ← hAlloc (.arr [])
    let exprJ ← hGetD m "expression" emptyE
    let ev ← hRead exprJ
    let expr ←
      match ev with
      | .arr es => do
        let parts ← hReadStrParts es
        hPure (strJoin "\n" parts)
      | .str s => hPure (pyStrip s)
      | _ => hPure ""
    let exprA ← hAlloc (.str expr)
    let nm ← hGet m "name"
    let mi ← hAlloc (.obj [("name", nm), ("expression", exprA), ("table", tname)])
    hAppend msArr mi
    hAppend gMeasures mi
    hMeasureLoop rest tname msArr gMeasures

/-- The m-code join of a partition expression value (processor.py line
152): a line list is joined with single spaces, a string passes through,
anything else is empty. -/
def hMCode : HVal → HM String
  | .arr es => hJoinStrsAddrs " " es
  | .str s => hPure s
  | _ => hPure ""

/-- Partition loop of one table at heap level (processor.py lines
148-155): reads partitions, and on the first File.Contents match while
data_source is still None stores a fresh dict on the grading dict. -/
def hPartLoop : List Nat → Nat → HM Unit
  | [], _ => hPure ()
  | p :: rest, grading => do
    let src0 ← hGet p "source"
    let bs ← hTruthy src0
    let src ← hCoalesce bs src0 (.obj [])
    let ty ← hGet src "type"
    let bm ← hEqStr ty "m"
    if bm then do
      let emptyE ← hAlloc (.arr [])
      let exprJ ← hGetD src "expression" emptyE
      let ev ← hRead exprJ
      let mcode ← hMCode ev
      match reSearchFileContents mcode.toList with
      | some path => do
        let dsCur ← hGet grading "data_source"
        let dsV ← hRead dsCur
        match dsV with
        | .null => do
          let tyA ← hAlloc (.str "File")
          let pA ← hAlloc (.str path)
          let ds ← hAlloc (.obj [("type", tyA), ("path", pA)])
          hDictSet grading "data_source" ds
          hPartLoop rest grading
        | _ => hPartLoop rest grading
      | none => hPartLoop rest grading
    else hPartLoop rest grading

/-- First table pass at heap level (processor.py lines 114-157). -/
def hTableLoop : List Nat → Nat → Nat → Nat → HM Unit
  | [], _, _, _ => hPure ()
  | t :: rest, grading, gTables, gMeasures => do
    let hid ← hGet t "isHidden"
    let bh ← hTruthy hid
    let priv ← hGet t "isPrivate"
    let bp ← hTruthy priv
    if bh || bp then hTableLoop rest grading gTables gMeasures
    else do
      let tname ← hGet t "name"
      let colsArr ← hAlloc (.arr [])
      let msArr ← hAlloc (.arr [])
      let ti ← hAlloc (.obj [("name", tname), ("columns", colsArr), ("measures", msArr)])
      let emptyC ← hAlloc (.arr [])
      let colsJ0 ← hGetD t "columns" emptyC
      let bC ← hTruthy colsJ0
      let colsJ ← hCoalesce bC colsJ0 (.arr [])
      let colL ← hIter colsJ
      hColLoop colL colsArr
      let emptyM ← hAlloc (.arr [])
      let msJ0 ← hGetD t "measures" emptyM
      let bM ← hTruthy msJ0
      let msJ ← hCoalesce bM msJ0 (.arr [])
      let msL ← hIter msJ
      hMeasureLoop msL tname msArr gMeasures
      let emptyP ← hAlloc (.arr [])
      let pJ0 ← hGetD t "partitions" emptyP
      let bP ← hTruthy pJ0
      let pJ ← hCoalesce bP pJ0 (.arr [])
      let pL ← hIter pJ
      hPartLoop pL grading
      hAppend gTables ti
      hTableLoop rest grading gTables gMeasures

/-- Relationship pass at heap level (processor.py lines 159-167). -/
def hRelLoop (fuel : Nat) : List Nat → Nat → HM Unit
  | [], _ => hPure ()
  | r :: rest, gRels => do
    let toT0 ← hGet r "toTable"
    let bt ← hTruthy toT0
    let toT ← hCoalesce bt toT0 (.str "")
    let bIn ← hIn "LocalDateTable" toT
    if bIn then hRelLoop fuel rest gRels
    else do
      let ft ← hGet r "fromTable"
      let fts ← hStrOf fuel ft
      let fc ← hGet r "fromColumn"
      let fcs ← hStrOf fuel fc
      let fA ← hAlloc (.str (fts ++ "[" ++ fcs ++ "]"))
      let tt ← hGet r "toTable"
      let tts ← hStrOf fuel tt
      let tc ← hGet r "toColumn"
      let tcs ← hStrOf fuel tc
      let tA ← hAlloc (.str (tts ++ "[" ++ tcs ++ "]"))
      let jb ← hGet r "joinOnDateBehavior"
      let bj ← hTruthy jb
      let tyA ← hCoalesce bj jb (.str "standard")
      let ri ← hAlloc (.obj [("from", fA), ("to", tA), ("type", tyA)])
      hAppend gRels ri
      hRelLoop fuel rest gRels

/-- TemplateId annotation test at heap level (processor.py line 175). -/
def hAnyTemplateId : List Nat → HM Bool
  | [] => hPure false
  | a :: rest => do
    let v ← hRead a
    match v with
    | .obj _ => do
      let nm ← hGet a "name"
      let b ← hEqStr nm "TemplateId"
      if b then hPure true else hAnyTemplateId rest
    | _ => hAnyTemplateId rest

/-- Level name collection at heap level (processor.py line 180): the
stored name addresses of the dict level entries. -/
def hLevelNames : List Nat → HM (List Nat)
  | [] => hPure []
  | l :: rest => do
    let v ← hRead l
    match v with
    | .obj _ => do
      let nm ← hGet l "name"
      let ns ← hLevelNames rest
      hPure (nm :: ns)
    | _ => hLevelNames rest

/-- Hierarchy loop of one non-hidden table at heap level (processor.py
lines 173-181). -/
def hHierInner : List Nat → Nat → Nat → HM Unit
  | [], _, _ => hPure ()
  | hh :: rest, t, gHiers => do
    let emptyA ← hAlloc (.arr [])
    let aJ0 ← hGetD hh "annotations" emptyA
    let ba ← hTruthy aJ0
    let aJ ← hCoalesce ba aJ0 (.arr [])
    let annos ← hIter aJ
    let skip ← hAnyTemplateId annos
    if skip then hHierInner rest t gHiers
    else do
      let nm ← hGet hh "name"
      let tn ← hGet t "name"
      let emptyL ← hAlloc (.arr [])
      let lJ0 ← hGetD hh "levels" emptyL
      let bl ← hTruthy lJ0
      let lJ ← hCoalesce bl lJ0 (.arr [])
      let lvls ← hIter lJ
      let lvlNames ← hLevelNames lvls
      let lvlArr ← hAlloc (.arr lvlNames)
      let hi ← hAlloc (.obj [("name", nm), ("table", tn), ("levels", lvlArr)])
      hAppend gHiers hi
      hHierInner rest t gHiers

/-- Second table pass at heap level (processor.py lines 169-181). -/
def hHierLoop : List Nat → Nat → HM Unit
  | [], _ => hPure ()
  | t :: rest, gHiers => do
    let hid ← hGet t "isHidden"
    let b ← hTruthy hid
    if b then hHierLoop rest gHiers
    else do
      let emptyH ← hAlloc (.arr [])
      let hJ0 ← hGetD t "hierarchies" emptyH
      let bh ← hTruthy hJ0
      let hJ ← hCoalesce bh hJ0 (.arr [])
      let hl ← hIter hJ
      hHierInner hl t gHiers
      hHierLoop rest gHiers

/-- Main table search at heap level (processor.py line 183). -/
def hFindSheet1 : List Nat → HM (Option Nat)
  | [] => hPure none
  | t :: rest => do
    let nm ← hGet t "name"
    let b ← hEqStr nm "Sheet1"
    if b then hPure (some t) else hFindSheet1 rest

/-- Time intelligence test at heap level (processor.py lines 193-197),
short-circuiting as any() does. -/
def hTimeIntel : List Nat → HM Bool
  | [] => hPure false
  | m :: rest => do
    let e ← hGet m "expression"
    let ev ← hRead e
    let b1 := match ev with | .str s => strContains s "SAMEPERIODLASTYEAR" | _ => false
    let n ← hGet m "name"
    let nv ← hRead n
    let b2 := match nv with | .str s => strContains s "YoY" | _ => false
    if b1 || b2 then hPure true else hTimeIntel rest

/-- Heap-level embedding of extract_grading_info (processor.py lines
72-200): the result is the address of the fresh grading_info dict.  The
fuel only bounds the object-graph walks of the f-string renderings.  The
or-chains for the name and compatibility level are evaluated without the
Python short-circuit; the skipped lookups cannot fail (their receivers
are dicts) and the extra constant allocations touch only fresh cells, so
the difference is not observable in the returned data or in the frame
property. -/
def hExtract (fuel : Nat) (model : Nat) : HM Nat := do
  let mval ← hGet model "model"
  let mvObj ← hIsObj mval
  let model_root := if mvObj then mval else model
  let nameR ← hGet model "name"
  let tR ← hTruthy nameR
  let nameN ← hGet model_root "name"
  let tN ← hTruthy nameN
  let unk ← hAlloc (.str "Unknown")
  let model_name := if tR then nameR else if tN then nameN else unk
  let compR ← hGet model "compatibilityLevel"
  let cR ← hTruthy compR
  let compN ← hGet model_root "compatibilityLevel"
  let compat := if cR then compR else compN
  let gTables ← hAlloc (.arr [])
  let gMeasures ← hAlloc (.arr [])
  let gRels ← hAlloc (.arr [])
  let gHiers ← hAlloc (.arr [])
  let gSummary ← hAlloc (.obj [])
  let grading ← hAlloc (.obj [("model_name", model_name), ("compatibility_level", compat),
    ("tables", gTables), ("measures", gMeasures), ("relationships", gRels),
    ("hierarchies", gHiers), ("data_source", 0), ("summary", gSummary)])
  let rootObj ← hIsObj model_root
  let emptyT ← hAlloc (.arr [])
  let tablesJ ← hGetDIf rootObj model_root "tables" emptyT
  let emptyR ← hAlloc (.arr [])
  let relsJ ← hGetDIf rootObj model_root "relationships" emptyR
  let ts ← hIter tablesJ
  hTableLoop ts grading gTables gMeasures
  let rls ← hIter relsJ
  hRelLoop fuel rls gRels
  hHierLoop ts gHiers
  let gt ← hGet grading "tables"
  let tisL ← hIter gt
  let pref ← hFindSheet1 tisL
  let mainT := match pref with
    | some a => some a
    | none => tisL.head?
  match mainT with
  | none => hPure grading
  | some mA => do
    let bMain ← hTruthy mA
    if bMain then do
      let nmA ← hGet mA "name"
      let emptyC ← hAlloc (.arr [])
      let colsA ← hGetD mA "columns" emptyC
      let ncols ← hLen colsA
      let gm ← hGet grading "measures"
      let nms ← hLen gm
      let gr ← hGet grading "relationships"
      let nrs ← hLen gr
      let gh ← hGet grading "hierarchies"
      let nhs ← hLen gh
      let msL ← hIter gm
      let hti ← hTimeIntel msL
      let a1 ← hAlloc (.num ncols)
      let a2 ← hAlloc (.num nms)
      let a3 ← hAlloc (.num nrs)
      let a4 ← hAlloc (.num nhs)
      let a5 ← hAlloc (.bool hti)
      let sm ← hAlloc (.obj [("main_table", nmA), ("total_columns", a1),
        ("total_measures", a2), ("total_relationships", a3),
        ("total_hierarchies", a4), ("has_time_intelligence", a5)])
      hDictSet grading "summary" sm
      hPure grading
    else hPure grading

/-- The heap region below an address bound is unchanged and the
allocation counter never moves backwards. -/
def Preserves (n : Nat) (s s2 : HSt) : Prop :=
  s.next ≤ s2.next ∧ ∀ a, a < n → hLookup s2.mem a = hLookup s.mem a

theorem preserves_refl (n : Nat) (s : HSt) : Preserves n s s :=
  ⟨Nat.le_refl _, fun _ _ => rfl⟩

theorem preserves_trans {n : Nat} {s s1 s2 : HSt}
    (h1 : Preserves n s s1) (h2 : Preserves n s1 s2) : Preserves n s s2 :=
  ⟨Nat.le_trans h1.1 h2.1, fun a ha => (h2.2 a ha).trans (h1.2 a ha)⟩

theorem hmBind_ok {α β : Type} {m : HM α} {f : α → HM β} {s : HSt} {y : β} {s2 : HSt} :
    (m >>= f) s = .ok (y, s2) ↔ ∃ x s1, m s = .ok (x, s1) ∧ f x s1 = .ok (y, s2) := by
  show hBind m f s = _ ↔ _
  unfold hBind
  cases hm : m s with
  | error e => simp
  | ok p =>
    cases p with
    | mk x s1 =>
      simp
      constructor
      · intro h
        exact ⟨x, s1, ⟨rfl, rfl⟩, h⟩
      · rintro ⟨x2, s3, ⟨hx, hs⟩, h⟩
        subst hx
        subst hs
        exact h

theorem hPure_ok {α : Type} {x : α} {s : HSt} {y : α} {s2 : HSt}
    (h : (hPure x : HM α) s = .ok (y, s2)) : y = x ∧ s2 = s := by
  unfold hPure at h
  simp at h
  exact ⟨h.1.symm, h.2.symm⟩

theorem hFail_not_ok {α : Type} {e : String} {s : HSt} {y : α} {s2 : HSt}
    (h : (hFail e : HM α) s = .ok (y, s2)) : False := by
  unfold hFail at h
  simp at h

theorem hAlloc_ok {v : HVal} {s : HSt} {x : Nat} {s2 : HSt}
    (h : hAlloc v s = .ok (x, s2)) :
    x = s.next ∧ s2.next = s.next + 1 ∧ s2.mem = (s.next, v) :: s.mem := by
  unfold hAlloc at h
  simp at h
  obtain ⟨h1, h2⟩ := h
  exact ⟨h1.symm, by rw [← h2], by rw [← h2]⟩

theorem hRead_ok {a : Nat} {s : HSt} {v : HVal} {s2 : HSt}
    (h : hRead a s = .ok (v, s2)) : s2 = s ∧ hLookup s.mem a = some v := by
  unfold hRead at h
  split at h
  · simp at h
    rename_i hv
    exact ⟨h.2.symm, by rw [hv, h.1]⟩
  · simp at h

theorem hWrite_ok {a : Nat} {v : HVal} {s : HSt} {u : Unit} {s2 : HSt}
    (h : hWrite a v s = .ok (u, s2)) :
    s2.next = s.next ∧ s2.mem = (a, v) :: s.mem := by
  unfold hWrite at h
  simp at h
  exact ⟨by rw [← h], by rw [← h]⟩

theorem hLookup_cons_high {n a2 : Nat} {v : HVal} {m : HMem} (ha : n ≤ a2) :
    ∀ a, a < n → hLookup ((a2, v) :: m) a = hLookup m a := by
  intro a ha2
  unfold hLookup
  have : (a2 == a) = false := by
    simp
    omega
  simp [List.find?, this]

theorem hAlloc_preserves {n : Nat} {v : HVal} {s : HSt} {x : Nat} {s2 : HSt}
    (hn : n ≤ s.next) (h : hAlloc v s = .ok (x, s2)) :
    Preserves n s s2 ∧ x = s.next ∧ s2.next = s.next + 1 := by
  obtain ⟨hx, hnext, hmem⟩ := hAlloc_ok h
  refine ⟨⟨by omega, ?_⟩, hx, hnext⟩
  intro a ha
  rw [hmem]
  exact hLookup_cons_high hn a ha

theorem hWrite_preserves {n a : Nat} {v : HVal} {s : HSt} {u : Unit} {s2 : HSt}
    (ha : n ≤ a) (h : hWrite a v s = .ok (u, s2)) : Preserves n s s2 := by
  obtain ⟨hnext, hmem⟩ := hWrite_ok h
  refine ⟨by omega, ?_⟩
  intro b hb
  rw [hmem]
  exact hLookup_cons_high ha b hb

theorem hAppend_preserves {n a x : Nat} {s : HSt} {u : Unit} {s2 : HSt}
    (ha : n ≤ a) (h : hAppend a x s = .ok (u, s2)) : Preserves n s s2 := by
  unfold hAppend at h
  rw [hmBind_ok] at h
  obtain ⟨v, s1, hr, h⟩ := h
  obtain ⟨hs1, -⟩ := hRead_ok hr
  subst hs1
  split at h
  · exact hWrite_preserves ha h
  · exact absurd h (by exact fun hh => hFail_not_ok hh)

theorem hDictSet_preserves {n a : Nat} {k : String} {x : Nat} {s : HSt} {u : Unit} {s2 : HSt}
    (ha : n ≤ a) (h : hDictSet a k x s = .ok (u, s2)) : Preserves n s s2 := by
  unfold hDictSet at h
  rw [hmBind_ok] at h
  obtain ⟨v, s1, hr, h⟩ := h
  obtain ⟨hs1, -⟩ := hRead_ok hr
  subst hs1
  split at h
  · exact hWrite_preserves ha h
  · exact absurd h (by exact fun hh => hFail_not_ok hh)

theorem preserves_of_eq {n : Nat} {s s2 : HSt} (h : s2 = s) : Preserves n s s2 :=
  h ▸ preserves_refl n s

theorem hGet_stEq {a : Nat} {k : String} {s : HSt} {x : Nat} {s2 : HSt}
    (h : hGet a k s = .ok (x, s2)) : s2 = s := by
  unfold hGet at h
  rw [hmBind_ok] at h
  obtain ⟨v, s1, hr, h⟩ := h
  obtain ⟨hs1, -⟩ := hRead_ok hr
  subst hs1
  split at h
  · exact (hPure_ok h).2
  · exact absurd h (fun hh => hFail_not_ok hh)

theorem hGetD_stEq {a : Nat} {k : String} {d : Nat} {s : HSt} {x : Nat} {s2 : HSt}
    (h : hGetD a k d s = .ok (x, s2)) : s2 = s := by
  unfold hGetD at h
  rw [hmBind_ok] at h
  obtain ⟨v, s1, hr, h⟩ := h
  obtain ⟨hs1, -⟩ := hRead_ok hr
  subst hs1
  split at h
  · exact (hPure_ok h).2
  · exact absurd h (fun hh => hFail_not_ok hh)

theorem hTruthy_stEq {a : Nat} {s : HSt} {x : Bool} {s2 : HSt}
    (h : hTruthy a s = .ok (x, s2)) : s2 = s := by
  unfold hTruthy at h
  rw [hmBind_ok] at h
  obtain ⟨v, s1, hr, h⟩ := h
  obtain ⟨hs1, -⟩ := hRead_ok hr
  subst hs1
  exact (hPure_ok h).2

theorem hIsObj_stEq {a : Nat} {s : HSt} {x : Bool} {s2 : HSt}
    (h : hIsObj a s = .ok (x, s2)) : s2 = s := by
  unfold hIsObj at h
  rw [hmBind_ok] at h
  obtain ⟨v, s1, hr, h⟩ := h
  obtain ⟨hs1, -⟩ := hRead_ok hr
  subst hs1
  exact (hPure_ok h).2

theorem hEqStr_stEq {a : Nat} {lit : String} {s : HSt} {x : Bool} {s2 : HSt}
    (h : hEqStr a lit s = .ok (x, s2)) : s2 = s := by
  unfold hEqStr at h
  rw [hmBind_ok] at h
  obtain ⟨v, s1, hr, h⟩ := h
  obtain ⟨hs1, -⟩ := hRead_ok hr
  subst hs1
  exact (hPure_ok h).2

theorem hAnyEqStr_stEq : ∀ {es : List Nat} {needle : String} {s : HSt} {x : Bool} {s2 : HSt},
    hAnyEqStr es needle s = .ok (x, s2) → s2 = s := by
  intro es
  induction es with
  | nil =>
    intro needle s x s2 h
    exact (hPure_ok h).2
  | cons e rest ih =>
    intro needle s x s2 h
    unfold hAnyEqStr at h
    rw [hmBind_ok] at h
    obtain ⟨b, s1, hb, h⟩ := h
    have hs1 := hEqStr_stEq hb
    subst hs1
    split at h
    · exact (hPure_ok h).2
    · exact ih h

theorem hIn_stEq {needle : String} {a : Nat} {s : HSt} {x : Bool} {s2 : HSt}
    (h : hIn needle a s = .ok (x, s2)) : s2 = s := by
  unfold hIn at h
  rw [hmBind_ok] at h
  obtain ⟨v, s1, hr, h⟩ := h
  obtain ⟨hs1, -⟩ := hRead_ok hr
  subst hs1
  split at h
  · exact (hPure_ok h).2
  · exact hAnyEqStr_stEq h
  · exact (hPure_ok h).2
  · exact absurd h (fun hh => hFail_not_ok hh)

theorem hReadStrParts_stEq : ∀ {es : List Nat} {s : HSt} {x : List String} {s2 : HSt},
    hReadStrParts es s = .ok (x, s2) → s2 = s := by
  intro es
  induction es with
  | nil =>
    intro s x s2 h
    exact (hPure_ok h).2
  | cons e rest ih =>
    intro s x s2 h
    unfold hReadStrParts at h
    rw [hmBind_ok] at h
    obtain ⟨v, s1, hr, h⟩ := h
    obtain ⟨hs1, -⟩ := hRead_ok hr
    subst hs1
    rw [hmBind_ok] at h
    obtain ⟨ps, s3, hps, h⟩ := h
    have hs3 := ih hps
    subst hs3
    split at h
    · split at h
      · exact (hPure_ok h).2
      · exact (hPure_ok h).2
    · exact (hPure_ok h).2

theorem hJoinStrsAddrs_stEq : ∀ {es : List Nat} {sep : String} {s : HSt} {x : String} {s2 : HSt},
    hJoinStrsAddrs sep es s = .ok (x, s2) → s2 = s := by
  intro es
  induction es with
  | nil =>
    intro sep s x s2 h
    exact (hPure_ok h).2
  | cons e rest ih =>
    intro sep s x s2 h
    cases rest with
    | nil =>
      unfold hJoinStrsAddrs at h
      rw [hmBind_ok] at h
      obtain ⟨v, s1, hr, h⟩ := h
      obtain ⟨hs1, -⟩ := hRead_ok hr
      subst hs1
      split at h
      · exact (hPure_ok h).2
      · exact absurd h (fun hh => hFail_not_ok hh)
    | cons e2 rest2 =>
      unfold hJoinStrsAddrs at h
      rw [hmBind_ok] at h
      obtain ⟨v, s1, hr, h⟩ := h
      obtain ⟨hs1, -⟩ := hRead_ok hr
      subst hs1
      split at h
      · rw [hmBind_ok] at h
        obtain ⟨r, s3, hr2, h⟩ := h
        have hs3 := ih hr2
        subst hs3
        exact (hPure_ok h).2
      · exact absurd h (fun hh => hFail_not_ok hh)

theorem hLen_stEq {a : Nat} {s : HSt} {x : Nat} {s2 : HSt}
    (h : hLen a s = .ok (x, s2)) : s2 = s := by
  unfold hLen at h
  rw [hmBind_ok] at h
  obtain ⟨v, s1, hr, h⟩ := h
  obtain ⟨hs1, -⟩ := hRead_ok hr
  subst hs1
  split at h
  · exact (hPure_ok h).2
  · exact (hPure_ok h).2
  · exact (hPure_ok h).2
  · exact absurd h (fun hh => hFail_not_ok hh)

theorem hReprMany_stEq : ∀ (fuel : Nat) {es : List Nat} {s : HSt} {x : List String} {s2 : HSt},
    hReprMany fuel es s = .ok (x, s2) → s2 = s := by
  intro fuel
  induction fuel with
  | zero =>
    intro es s x s2 h
    cases es with
    | nil => exact absurd h (fun hh => hFail_not_ok hh)
    | cons a rest => exact absurd h (fun hh => hFail_not_ok hh)
  | succ fuel ih =>
    intro es s x s2 h
    cases es with
    | nil => exact (hPure_ok h).2
    | cons a rest =>
      unfold hReprMany at h
      rw [hmBind_ok] at h
      obtain ⟨v, s1, hr, h⟩ := h
      obtain ⟨hs1, -⟩ := hRead_ok hr
      subst hs1
      split at h <;>
        first
        | (rw [hmBind_ok] at h
           obtain ⟨p, s3, hp, h⟩ := h
           have hs3 := (hPure_ok hp).2
           subst hs3
           rw [hmBind_ok] at h
           obtain ⟨ps, s4, hps, h⟩ := h
           have := ih hps
           subst this
           exact (hPure_ok h).2)
        | (rw [hmBind_ok] at h
           obtain ⟨ps0, s5, hps0, h⟩ := h
           have := ih hps0
           subst this
           rw [hmBind_ok] at h
           obtain ⟨p, s3, hp, h⟩ := h
           have hs3 := (hPure_ok hp).2
           subst hs3
           rw [hmBind_ok] at h
           obtain ⟨ps, s4, hps, h⟩ := h
           have := ih hps
           subst this
           exact (hPure_ok h).2)

theorem hStrOf_stEq {fuel a : Nat} {s : HSt} {x : String} {s2 : HSt}
    (h : hStrOf fuel a s = .ok (x, s2)) : s2 = s := by
  unfold hStrOf at h
  rw [hmBind_ok] at h
  obtain ⟨v, s1, hr, h⟩ := h
  obtain ⟨hs1, -⟩ := hRead_ok hr
  subst hs1
  split at h
  · exact (hPure_ok h).2
  · exact (hPure_ok h).2
  · exact (hPure_ok h).2
  · exact (hPure_ok h).2
  · rw [hmBind_ok] at h
    obtain ⟨ps, s3, hps, h⟩ := h
    have := hReprMany_stEq fuel hps
    subst this
    exact (hPure_ok h).2
  · rw [hmBind_ok] at h
    obtain ⟨ps, s3, hps, h⟩ := h
    have := hReprMany_stEq fuel hps
    subst this
    exact (hPure_ok h).2

theorem hFindSheet1_stEq : ∀ {ts : List Nat} {s : HSt} {x : Option Nat} {s2 : HSt},
    hFindSheet1 ts s = .ok (x, s2) → s2 = s := by
  intro ts
  induction ts with
  | nil =>
    intro s x s2 h
    exact (hPure_ok h).2
  | cons t rest ih =>
    intro s x s2 h
    unfold hFindSheet1 at h
    rw [hmBind_ok] at h
    obtain ⟨nm, s1, hnm, h⟩ := h
    have := hGet_stEq hnm
    subst this
    rw [hmBind_ok] at h
    obtain ⟨b, s3, hb, h⟩ := h
    have := hEqStr_stEq hb
    subst this
    split at h
    · exact (hPure_ok h).2
    · exact ih h

theorem hTimeIntel_stEq : ∀ {ms : List Nat} {s : HSt} {x : Bool} {s2 : HSt},
    hTimeIntel ms s = .ok (x, s2) → s2 = s := by
  intro ms
  induction ms with
  | nil =>
    intro s x s2 h
    exact (hPure_ok h).2
  | cons m rest ih =>
    intro s x s2 h
    unfold hTimeIntel at h
    rw [hmBind_ok] at h
    obtain ⟨e, s1, he, h⟩ := h
    have := hGet_stEq he
    subst this
    rw [hmBind_ok] at h
    obtain ⟨ev, s3, hev, h⟩ := h
    obtain ⟨hs3, -⟩ := hRead_ok hev
    subst hs3
    rw [hmBind_ok] at h
    obtain ⟨n, s4, hn, h⟩ := h
    have := hGet_stEq hn
    subst this
    rw [hmBind_ok] at h
    obtain ⟨nv, s5, hnv, h⟩ := h
    obtain ⟨hs5, -⟩ := hRead_ok hnv
    subst hs5
    split at h
    · exact (hPure_ok h).2
    · exact ih h

theorem hAnyTemplateId_stEq : ∀ {as : List Nat} {s : HSt} {x : Bool} {s2 : HSt},
    hAnyTemplateId as s = .ok (x, s2) → s2 = s := by
  intro as
  induction as with
  | nil =>
    intro s x s2 h
    exact (hPure_ok h).2
  | cons a rest ih =>
    intro s x s2 h
    unfold hAnyTemplateId at h
    rw [hmBind_ok] at h
    obtain ⟨v, s1, hv, h⟩ := h
    obtain ⟨hs1, -⟩ := hRead_ok hv
    subst hs1
    split at h
    · rw [hmBind_ok] at h
      obtain ⟨nm, s3, hnm, h⟩ := h
      have := hGet_stEq hnm
      subst this
      rw [hmBind_ok] at h
      obtain ⟨b, s4, hb, h⟩ := h
      have := hEqStr_stEq hb
      subst this
      split at h
      · exact (hPure_ok h).2
      · exact ih h
    · exact ih h

theorem hLevelNames_stEq : ∀ {ls : List Nat} {s : HSt} {x : List Nat} {s2 : HSt},
    hLevelNames ls s = .ok (x, s2) → s2 = s := by
  intro ls
  induction ls with
  | nil =>
    intro s x s2 h
    exact (hPure_ok h).2
  | cons l rest ih =>
    intro s x s2 h
    unfold hLevelNames at h
    rw [hmBind_ok] at h
    obtain ⟨v, s1, hv, h⟩ := h
    obtain ⟨hs1, -⟩ := hRead_ok hv
    subst hs1
    split at h
    · rw [hmBind_ok] at h
      obtain ⟨nm, s3, hnm, h⟩ := h
      have := hGet_stEq hnm
      subst this
      rw [hmBind_ok] at h
      obtain ⟨ns, s4, hns, h⟩ := h
      have := ih hns
      subst this
      exact (hPure_ok h).2
    · exact ih h

theorem hAllocStrs_preserves : ∀ {cs : List String} {n : Nat} {s : HSt} {x : List Nat} {s2 : HSt},
    n ≤ s.next → hAllocStrs cs s = .ok (x, s2) → Preserves n s s2 := by
  intro cs
  induction cs with
  | nil =>
    intro n s x s2 hn h
    exact preserves_of_eq (hPure_ok h).2
  | cons c rest ih =>
    intro n s x s2 hn h
    unfold hAllocStrs at h
    rw [hmBind_ok] at h
    obtain ⟨a, s1, ha, h⟩ := h
    obtain ⟨hp1, -, -⟩ := hAlloc_preserves hn ha
    rw [hmBind_ok] at h
    obtain ⟨as, s3, has, h⟩ := h
    have hp2 := ih (Nat.le_trans hn hp1.1) has
    have := (hPure_ok h).2
    subst this
    exact preserves_trans hp1 hp2

theorem hIter_preserves {a n : Nat} {s : HSt} {x : List Nat} {s2 : HSt}
    (hn : n ≤ s.next) (h : hIter a s = .ok (x, s2)) : Preserves n s s2 := by
  unfold hIter at h
  rw [hmBind_ok] at h
  obtain ⟨v, s1, hr, h⟩ := h
  obtain ⟨hs1, -⟩ := hRead_ok hr
  subst hs1
  split at h
  · exact preserves_of_eq (hPure_ok h).2
  · exact hAllocStrs_preserves hn h
  · exact hAllocStrs_preserves hn h
  · exact absurd h (fun hh => hFail_not_ok hh)

theorem hColLoop_preserves : ∀ {cl : List Nat} {colsArr n : Nat} {s : HSt} {u : Unit} {s2 : HSt},
    n ≤ colsArr → n ≤ s.next → hColLoop cl colsArr s = .ok (u, s2) → Preserves n s s2 := by
  intro cl
  induction cl with
  | nil =>
    intro colsArr n s u s2 hc hn h
    exact preserves_of_eq (hPure_ok h).2
  | cons c rest ih =>
    intro colsArr n s u s2 hc hn h
    unfold hColLoop at h
    rw [hmBind_ok] at h
    obtain ⟨hid, s1, h1, h⟩ := h
    have := hGet_stEq h1
    subst this
    rw [hmBind_ok] at h
    obtain ⟨b, s3, h3, h⟩ := h
    have := hTruthy_stEq h3
    subst this
    split at h
    · exact ih hc hn h
    · rw [hmBind_ok] at h
      obtain ⟨nm, s4, h4, h⟩ := h
      have := hGet_stEq h4
      subst this
      rw [hmBind_ok] at h
      obtain ⟨dt, s5, h5, h⟩ := h
      have := hGet_stEq h5
      subst this
      rw [hmBind_ok] at h
      obtain ⟨sb, s6, h6, h⟩ := h
      have := hGet_stEq h6
      subst this
      rw [hmBind_ok] at h
      obtain ⟨ty, s7, h7, h⟩ := h
      have := hGet_stEq h7
      subst this
      rw [hmBind_ok] at h
      obtain ⟨isCalc, s8, h8, h⟩ := h
      have := hEqStr_stEq h8
      subst this
      rw [hmBind_ok] at h
      obtain ⟨calcA, s9, h9, h⟩ := h
      obtain ⟨hp9, -, -⟩ := hAlloc_preserves hn h9
      rw [hmBind_ok] at h
      obtain ⟨ci, s10, h10, h⟩ := h
      obtain ⟨hp10, -, -⟩ := hAlloc_preserves (Nat.le_trans hn hp9.1) h10
      rw [hmBind_ok] at h
      obtain ⟨uu, s11, h11, h⟩ := h
      have hp11 := hAppend_preserves hc h11
      have hnext : n ≤ s11.next :=
        Nat.le_trans hn (Nat.le_trans hp9.1 (Nat.le_trans hp10.1 hp11.1))
      have hp12 := ih hc hnext h
      exact preserves_trans hp9 (preserves_trans hp10 (preserves_trans hp11 hp12))

theorem hMeasureLoop_preserves :
    ∀ {ml : List Nat} {tname msArr gMeasures n : Nat} {s : HSt} {u : Unit} {s2 : HSt},
    n ≤ msArr → n ≤ gMeasures → n ≤ s.next →
    hMeasureLoop ml tname msArr gMeasures s = .ok (u, s2) → Preserves n s s2 := by
  intro ml
  induction ml with
  | nil =>
    intro tname msArr gMeasures n s u s2 hm hg hn h
    exact preserves_of_eq (hPure_ok h).2
  | cons m rest ih =>
    intro tname msArr gMeasures n s u s2 hm hg hn h
    unfold hMeasureLoop at h
    rw [hmBind_ok] at h
    obtain ⟨emptyE, s1, h1, h⟩ := h
    obtain ⟨hp1, -, -⟩ := hAlloc_preserves hn h1
    have hn1 : n ≤ s1.next := Nat.le_trans hn hp1.1
    rw [hmBind_ok] at h
    obtain ⟨exprJ, s3, h3, h⟩ := h
    have := hGetD_stEq h3
    subst this
    rw [hmBind_ok] at h
    obtain ⟨ev, s4, h4, h⟩ := h
    obtain ⟨hs4, -⟩ := hRead_ok h4
    subst hs4
    split at h
    · rw [hmBind_ok] at h
      obtain ⟨parts, s5, h5, h⟩ := h
      have := hReadStrParts_stEq h5
      subst this
      rw [hmBind_ok] at h
      obtain ⟨expr, s6, h6, h⟩ := h
      have := (hPure_ok h6).2
      subst this
      rw [hmBind_ok] at h
      obtain ⟨exprA, s7, h7, h⟩ := h
      obtain ⟨hp7, -, -⟩ := hAlloc_preserves hn1 h7
      have hn7 : n ≤ s7.next := Nat.le_trans hn1 hp7.1
      rw [hmBind_ok] at h
      obtain ⟨nm, s8, h8, h⟩ := h
      have := hGet_stEq h8
      subst this
      rw [hmBind_ok] at h
      obtain ⟨mi, s9, h9, h⟩ := h
      obtain ⟨hp9, -, -⟩ := hAlloc_preserves hn7 h9
      rw [hmBind_ok] at h
      obtain ⟨u1, s10, h10, h⟩ := h
      have hp10 := hAppend_preserves hm h10
      rw [hmBind_ok] at h
      obtain ⟨u2, s11, h11, h⟩ := h
      have hp11 := hAppend_preserves hg h11
      have hn11 : n ≤ s11.next :=
        Nat.le_trans hn7 (Nat.le_trans hp9.1 (Nat.le_trans hp10.1 hp11.1))
      have hp12 := ih hm hg hn11 h
      exact preserves_trans hp1
        (preserves_trans hp7
          (preserves_trans hp9 (preserves_trans hp10 (preserves_trans hp11 hp12))))
    · rw [hmBind_ok] at h
      obtain ⟨expr, s6, h6, h⟩ := h
      have := (hPure_ok h6).2
      subst this
      rw [hmBind_ok] at h
      obtain ⟨exprA, s7, h7, h⟩ := h
      obtain ⟨hp7, -, -⟩ := hAlloc_preserves hn1 h7
      have hn7 : n ≤ s7.next := Nat.le_trans hn1 hp7.1
      rw [hmBind_ok] at h
      obtain ⟨nm, s8, h8, h⟩ := h
      have := hGet_stEq h8
      subst this
      rw [hmBind_ok] at h
      obtain ⟨mi, s9, h9, h⟩ := h
      obtain ⟨hp9, -, -⟩ := hAlloc_preserves hn7 h9
      rw [hmBind_ok] at h
      obtain ⟨u1, s10, h10, h⟩ := h
      have hp10 := hAppend_preserves hm h10
      rw [hmBind_ok] at h
      obtain ⟨u2, s11, h11, h⟩ := h
      have hp11 := hAppend_preserves hg h11
      have hn11 : n ≤ s11.next :=
        Nat.le_trans hn7 (Nat.le_trans hp9.1 (Nat.le_trans hp10.1 hp11.1))
      have hp12 := ih hm hg hn11 h
      exact preserves_trans hp1
        (preserves_trans hp7
          (preserves_trans hp9 (preserves_trans hp10 (preserves_trans hp11 hp12))))
    · rw [hmBind_ok] at h
      obtain ⟨expr, s6, h6, h⟩ := h
      have := (hPure_ok h6).2
      subst this
      rw [hmBind_ok] at h
      obtain ⟨exprA, s7, h7, h⟩ := h
      obtain ⟨hp7, -, -⟩ := hAlloc_preserves hn1 h7
      have hn7 : n ≤ s7.next := Nat.le_trans hn1 hp7.1
      rw [hmBind_ok] at h
      obtain ⟨nm, s8, h8, h⟩ := h
      have := hGet_stEq h8
      subst this
      rw [hmBind_ok] at h
      obtain ⟨mi, s9, h9, h⟩ := h
      obtain ⟨hp9, -, -⟩ := hAlloc_preserves hn7 h9
      rw [hmBind_ok] at h
      obtain ⟨u1, s10, h10, h⟩ := h
      have hp10 := hAppend_preserves hm h10
      rw [hmBind_ok] at h
      obtain ⟨u2, s11, h11, h⟩ := h
      have hp11 := hAppend_preserves hg h11
      have hn11 : n ≤ s11.next :=
        Nat.le_trans hn7 (Nat.le_trans hp9.1 (Nat.le_trans hp10.1 hp11.1))
      have hp12 := ih hm hg hn11 h
      exact preserves_trans hp1
        (preserves_trans hp7
          (preserves_trans hp9 (preserves_trans hp10 (preserves_trans hp11 hp12))))

theorem hMCode_stEq {ev : HVal} {s : HSt} {x : String} {s2 : HSt}
    (h : hMCode ev s = .ok (x, s2)) : s2 = s := by
  cases ev with
  | arr es => exact hJoinStrsAddrs_stEq h
  | str s3 => exact (hPure_ok h).2
  | null => exact (hPure_ok h).2
  | bool b => exact (hPure_ok h).2
  | num n => exact (hPure_ok h).2
  | obj fs => exact (hPure_ok h).2

theorem hPartLoop_preserves :
    ∀ {pl : List Nat} {grading n : Nat} {s : HSt} {u : Unit} {s2 : HSt},
    n ≤ grading → n ≤ s.next →
    hPartLoop pl grading s = .ok (u, s2) → Preserves n s s2 := by
  intro pl
  induction pl with
  | nil =>
    intro grading n s u s2 hgr hn h
    exact preserves_of_eq (hPure_ok h).2
  | cons p rest ih =>
    intro grading n s u s2 hgr hn h
    unfold hPartLoop at h
    rw [hmBind_ok] at h
    obtain ⟨src0, s1, h1, h⟩ := h
    have := hGet_stEq h1
    subst this
    rw [hmBind_ok] at h
    obtain ⟨bs, s3, h3, h⟩ := h
    have := hTruthy_stEq h3
    subst this
    rw [hmBind_ok] at h
    obtain ⟨src, s4, h4, h⟩ := h
    have hp4 : Preserves n s3 s4 := by
      unfold hCoalesce at h4
      split at h4
      · exact preserves_of_eq (hPure_ok h4).2
      · exact (hAlloc_preserves hn h4).1
    have hn4 : n ≤ s4.next := Nat.le_trans hn hp4.1
    rw [hmBind_ok] at h
    obtain ⟨ty, s5, h5, h⟩ := h
    have := hGet_stEq h5
    subst this
    rw [hmBind_ok] at h
    obtain ⟨bm, s6, h6, h⟩ := h
    have := hEqStr_stEq h6
    subst this
    split at h
    · rw [hmBind_ok] at h
      obtain ⟨emptyE, s7, h7, h⟩ := h
      obtain ⟨hp7, -, -⟩ := hAlloc_preserves hn4 h7
      have hn7 : n ≤ s7.next := Nat.le_trans hn4 hp7.1
      rw [hmBind_ok] at h
      obtain ⟨exprJ, s8, h8, h⟩ := h
      have := hGetD_stEq h8
      subst this
      rw [hmBind_ok] at h
      obtain ⟨ev, s9, h9, h⟩ := h
      obtain ⟨hs9, -⟩ := hRead_ok h9
      subst hs9
      rw [hmBind_ok] at h
      obtain ⟨mcode, s10, h10, h⟩ := h
      have := hMCode_stEq h10
      subst this
      cases hrs : reSearchFileContents mcode.toList with
      | some path =>
        simp only [hrs] at h
        rw [hmBind_ok] at h
        obtain ⟨dsCur, s11, h11, h⟩ := h
        have := hGet_stEq h11
        subst this
        rw [hmBind_ok] at h
        obtain ⟨dsV, s12, h12, h⟩ := h
        obtain ⟨hs12, -⟩ := hRead_ok h12
        subst hs12
        split at h
        · rw [hmBind_ok] at h
          obtain ⟨tyA, s13, h13, h⟩ := h
          obtain ⟨hp13, -, -⟩ := hAlloc_preserves hn7 h13
          have hn13 : n ≤ s13.next := Nat.le_trans hn7 hp13.1
          rw [hmBind_ok] at h
          obtain ⟨pA, s14, h14, h⟩ := h
          obtain ⟨hp14, -, -⟩ := hAlloc_preserves hn13 h14
          have hn14 : n ≤ s14.next := Nat.le_trans hn13 hp14.1
          rw [hmBind_ok] at h
          obtain ⟨ds, s15, h15, h⟩ := h
          obtain ⟨hp15, -, -⟩ := hAlloc_preserves hn14 h15
          have hn15 : n ≤ s15.next := Nat.le_trans hn14 hp15.1
          rw [hmBind_ok] at h
          obtain ⟨u1, s16, h16, h⟩ := h
          have hp16 := hDictSet_preserves hgr h16
          have hn16 : n ≤ s16.next := Nat.le_trans hn15 hp16.1
          have hp17 := ih hgr hn16 h
          exact preserves_trans hp4
            (preserves_trans hp7
              (preserves_trans hp13
                (preserves_trans hp14
                  (preserves_trans hp15 (preserves_trans hp16 hp17)))))
        · have hp17 := ih hgr hn7 h
          exact preserves_trans hp4 (preserves_trans hp7 hp17)
      | none =>
        simp only [hrs] at h
        have hp17 := ih hgr hn7 h
        exact preserves_trans hp4 (preserves_trans hp7 hp17)
    · have hp17 := ih hgr hn4 h
      exact preserves_trans hp4 hp17

theorem hCoalesce_preserves {b : Bool} {a : Nat} {v : HVal} {n : Nat} {s : HSt} {x : Nat} {s2 : HSt}
    (hn : n ≤ s.next) (h : hCoalesce b a v s = .ok (x, s2)) : Preserves n s s2 := by
  unfold hCoalesce at h
  split at h
  · exact preserves_of_eq (hPure_ok h).2
  · exact (hAlloc_preserves hn h).1

theorem hGetDIf_stEq {b : Bool} {a : Nat} {k : String} {d : Nat} {s : HSt} {x : Nat} {s2 : HSt}
    (h : hGetDIf b a k d s = .ok (x, s2)) : s2 = s := by
  unfold hGetDIf at h
  split at h
  · exact hGetD_stEq h
  · exact (hPure_ok h).2

theorem hTableLoop_preserves :
    ∀ {tl : List Nat} {grading gTables gMeasures n : Nat} {s : HSt} {u : Unit} {s2 : HSt},
    n ≤ grading → n ≤ gTables → n ≤ gMeasures → n ≤ s.next →
    hTableLoop tl grading gTables gMeasures s = .ok (u, s2) → Preserves n s s2 := by
  intro tl
  induction tl with
  | nil =>
    intro grading gTables gMeasures n s u s2 hgr hgt hgm hn h
    exact preserves_of_eq (hPure_ok h).2
  | cons t rest ih =>
    intro grading gTables gMeasures n s u s2 hgr hgt hgm hn h
    unfold hTableLoop at h
    rw [hmBind_ok] at h
    obtain ⟨hid, sA, hA, h⟩ := h
    have := hGet_stEq hA
    subst this
    rw [hmBind_ok] at h
    obtain ⟨bh, sB, hB, h⟩ := h
    have := hTruthy_stEq hB
    subst this
    rw [hmBind_ok] at h
    obtain ⟨priv, sC, hC, h⟩ := h
    have := hGet_stEq hC
    subst this
    rw [hmBind_ok] at h
    obtain ⟨bp, sD, hD, h⟩ := h
    have := hTruthy_stEq hD
    subst this
    split at h
    · exact ih hgr hgt hgm hn h
    · rw [hmBind_ok] at h
      obtain ⟨tname, s1, h1, h⟩ := h
      have := hGet_stEq h1
      subst this
      rw [hmBind_ok] at h
      obtain ⟨colsArr, s3, h3, h⟩ := h
      obtain ⟨hp3, hca, -⟩ := hAlloc_preserves hn h3
      have hcoln : n ≤ colsArr := by omega
      have hn3 : n ≤ s3.next := Nat.le_trans hn hp3.1
      rw [hmBind_ok] at h
      obtain ⟨msArr, s4, h4, h⟩ := h
      obtain ⟨hp4, hma, -⟩ := hAlloc_preserves hn3 h4
      have hmsn : n ≤ msArr := by omega
      have hn4 : n ≤ s4.next := Nat.le_trans hn3 hp4.1
      rw [hmBind_ok] at h
      obtain ⟨ti, s5, h5, h⟩ := h
      obtain ⟨hp5, -, -⟩ := hAlloc_preserves hn4 h5
      have hn5 : n ≤ s5.next := Nat.le_trans hn4 hp5.1
      rw [hmBind_ok] at h
      obtain ⟨emptyC, s6, h6, h⟩ := h
      obtain ⟨hp6, -, -⟩ := hAlloc_preserves hn5 h6
      have hn6 : n ≤ s6.next := Nat.le_trans hn5 hp6.1
      rw [hmBind_ok] at h
      obtain ⟨colsJ0, s7, h7, h⟩ := h
      have := hGetD_stEq h7
      subst this
      rw [hmBind_ok] at h
      obtain ⟨bC, s8, h8, h⟩ := h
      have := hTruthy_stEq h8
      subst this
      rw [hmBind_ok] at h
      obtain ⟨colsJ, s9, h9, h⟩ := h
      have hp9 := hCoalesce_preserves hn6 h9
      have hn9 : n ≤ s9.next := Nat.le_trans hn6 hp9.1
      rw [hmBind_ok] at h
      obtain ⟨colL, s10, h10, h⟩ := h
      have hp10 := hIter_preserves hn9 h10
      have hn10 : n ≤ s10.next := Nat.le_trans hn9 hp10.1
      rw [hmBind_ok] at h
      obtain ⟨u1, s11, h11, h⟩ := h
      have hp11 := hColLoop_preserves hcoln hn10 h11
      have hn11 : n ≤ s11.next := Nat.le_trans hn10 hp11.1
      rw [hmBind_ok] at h
      obtain ⟨emptyM, s12, h12, h⟩ := h
      obtain ⟨hp12, -, -⟩ := hAlloc_preserves hn11 h12
      have hn12 : n ≤ s12.next := Nat.le_trans hn11 hp12.1
      rw [hmBind_ok] at h
      obtain ⟨msJ0, s13, h13, h⟩ := h
      have := hGetD_stEq h13
      subst this
      rw [hmBind_ok] at h
      obtain ⟨bM, s14, h14, h⟩ := h
      have := hTruthy_stEq h14
      subst this
      rw [hmBind_ok] at h
      obtain ⟨msJ, s15, h15, h⟩ := h
      have hp15 := hCoalesce_preserves hn12 h15
      have hn15 : n ≤ s15.next := Nat.le_trans hn12 hp15.1
      rw [hmBind_ok] at h
      obtain ⟨msL, s16, h16, h⟩ := h
      have hp16 := hIter_preserves hn15 h16
      have hn16 : n ≤ s16.next := Nat.le_trans hn15 hp16.1
      rw [hmBind_ok] at h
      obtain ⟨u2, s17, h17, h⟩ := h
      have hp17 := hMeasureLoop_preserves hmsn hgm hn16 h17
      have hn17 : n ≤ s17.next := Nat.le_trans hn16 hp17.1
      rw [hmBind_ok] at h
      obtain ⟨emptyP, s18, h18, h⟩ := h
      obtain ⟨hp18, -, -⟩ := hAlloc_preserves hn17 h18
      have hn18 : n ≤ s18.next := Nat.le_trans hn17 hp18.1
      rw [hmBind_ok] at h
      obtain ⟨pJ0, s19, h19, h⟩ := h
      have := hGetD_stEq h19
      subst this
      rw [hmBind_ok] at h
      obtain ⟨bP, s20, h20, h⟩ := h
      have := hTruthy_stEq h20
      subst this
      rw [hmBind_ok] at h
      obtain ⟨pJ, s21, h21, h⟩ := h
      have hp21 := hCoalesce_preserves hn18 h21
      have hn21 : n ≤ s21.next := Nat.le_trans hn18 hp21.1
      rw [hmBind_ok] at h
      obtain ⟨pL, s22, h22, h⟩ := h
      have hp22 := hIter_preserves hn21 h22
      have hn22 : n ≤ s22.next := Nat.le_trans hn21 hp22.1
      rw [hmBind_ok] at h
      obtain ⟨u3, s23, h23, h⟩ := h
      have hp23 := hPartLoop_preserves hgr hn22 h23
      have hn23 : n ≤ s23.next := Nat.le_trans hn22 hp23.1
      rw [hmBind_ok] at h
      obtain ⟨u4, s24, h24, h⟩ := h
      have hp24 := hAppend_preserves hgt h24
      have hn24 : n ≤ s24.next := Nat.le_trans hn23 hp24.1
      have hp25 := ih hgr hgt hgm hn24 h
      exact preserves_trans hp3 (preserves_trans hp4 (preserves_trans hp5
        (preserves_trans hp6 (preserves_trans hp9 (preserves_trans hp10
        (preserves_trans hp11 (preserves_trans hp12 (preserves_trans hp15
        (preserves_trans hp16 (preserves_trans hp17 (preserves_trans hp18
        (preserves_trans hp21 (preserves_trans hp22 (preserves_trans hp23
        (preserves_trans hp24 hp25)))))))))))))))

theorem hRelLoop_preserves :
    ∀ {fuel : Nat} {rl : List Nat} {gRels n : Nat} {s : HSt} {u : Unit} {s2 : HSt},
    n ≤ gRels → n ≤ s.next →
    hRelLoop fuel rl gRels s = .ok (u, s2) → Preserves n s s2 := by
  intro fuel rl
  induction rl with
  | nil =>
    intro gRels n s u s2 hgr hn h
    exact preserves_of_eq (hPure_ok h).2
  | cons r rest ih =>
    intro gRels n s u s2 hgr hn h
    unfold hRelLoop at h
    rw [hmBind_ok] at h
    obtain ⟨toT0, sA, hA, h⟩ := h
    have := hGet_stEq hA
    subst this
    rw [hmBind_ok] at h
    obtain ⟨bt, sB, hB, h⟩ := h
    have := hTruthy_stEq hB
    subst this
    rw [hmBind_ok] at h
    obtain ⟨toT, s1, h1, h⟩ := h
    have hp1 := hCoalesce_preserves hn h1
    have hn1 : n ≤ s1.next := Nat.le_trans hn hp1.1
    rw [hmBind_ok] at h
    obtain ⟨bIn, s3, h3, h⟩ := h
    have := hIn_stEq h3
    subst this
    split at h
    · exact preserves_trans hp1 (ih hgr hn1 h)
    · rw [hmBind_ok] at h
      obtain ⟨ft, s4, h4, h⟩ := h
      have := hGet_stEq h4
      subst this
      rw [hmBind_ok] at h
      obtain ⟨fts, s5, h5, h⟩ := h
      have := hStrOf_stEq h5
      subst this
      rw [hmBind_ok] at h
      obtain ⟨fc, s6, h6, h⟩ := h
      have := hGet_stEq h6
      subst this
      rw [hmBind_ok] at h
      obtain ⟨fcs, s7, h7, h⟩ := h
      have := hStrOf_stEq h7
      subst this
      rw [hmBind_ok] at h
      obtain ⟨fA, s8, h8, h⟩ := h
      obtain ⟨hp8, -, -⟩ := hAlloc_preserves hn1 h8
      have hn8 : n ≤ s8.next := Nat.le_trans hn1 hp8.1
      rw [hmBind_ok] at h
      obtain ⟨tt, s9, h9, h⟩ := h
      have := hGet_stEq h9
      subst this
      rw [hmBind_ok] at h
      obtain ⟨tts, s10, h10, h⟩ := h
      have := hStrOf_stEq h10
      subst this
      rw [hmBind_ok] at h
      obtain ⟨tc, s11, h11, h⟩ := h
      have := hGet_stEq h11
      subst this
      rw [hmBind_ok] at h
      obtain ⟨tcs, s12, h12, h⟩ := h
      have := hStrOf_stEq h12
      subst this
      rw [hmBind_ok] at h
      obtain ⟨tA, s13, h13, h⟩ := h
      obtain ⟨hp13, -, -⟩ := hAlloc_preserves hn8 h13
      have hn13 : n ≤ s13.next := Nat.le_trans hn8 hp13.1
      rw [hmBind_ok] at h
      obtain ⟨jb, s14, h14, h⟩ := h
      have := hGet_stEq h14
      subst this
      rw [hmBind_ok] at h
      obtain ⟨bj, s15, h15, h⟩ := h
      have := hTruthy_stEq h15
      subst this
      rw [hmBind_ok] at h
      obtain ⟨tyA, s16, h16, h⟩ := h
      have hp16 := hCoalesce_preserves hn13 h16
      have hn16 : n ≤ s16.next := Nat.le_trans hn13 hp16.1
      rw [hmBind_ok] at h
      obtain ⟨ri, s17, h17, h⟩ := h
      obtain ⟨hp17, -, -⟩ := hAlloc_preserves hn16 h17
      have hn17 : n ≤ s17.next := Nat.le_trans hn16 hp17.1
      rw [hmBind_ok] at h
      obtain ⟨u1, s18, h18, h⟩ := h
      have hp18 := hAppend_preserves hgr h18
      have hn18 : n ≤ s18.next := Nat.le_trans hn17 hp18.1
      have hp19 := ih hgr hn18 h
      exact preserves_trans hp1 (preserves_trans hp8 (preserves_trans hp13
        (preserves_trans hp16 (preserves_trans hp17 (preserves_trans hp18 hp19)))))

theorem hHierInner_preserves :
    ∀ {hl : List Nat} {t gHiers n : Nat} {s : HSt} {u : Unit} {s2 : HSt},
    n ≤ gHiers → n ≤ s.next →
    hHierInner hl t gHiers s = .ok (u, s2) → Preserves n s s2 := by
  intro hl
  induction hl with
  | nil =>
    intro t gHiers n s u s2 hgh hn h
    exact preserves_of_eq (hPure_ok h).2
  | cons hh rest ih =>
    intro t gHiers n s u s2 hgh hn h
    unfold hHierInner at h
    rw [hmBind_ok] at h
    obtain ⟨emptyA, s1, h1, h⟩ := h
    obtain ⟨hp1, -, -⟩ := hAlloc_preserves hn h1
    have hn1 : n ≤ s1.next := Nat.le_trans hn hp1.1
    rw [hmBind_ok] at h
    obtain ⟨aJ0, s3, h3, h⟩ := h
    have := hGetD_stEq h3
    subst this
    rw [hmBind_ok] at h
    obtain ⟨ba, s4, h4, h⟩ := h
    have := hTruthy_stEq h4
    subst this
    rw [hmBind_ok] at h
    obtain ⟨aJ, s5, h5, h⟩ := h
    have hp5 := hCoalesce_preserves hn1 h5
    have hn5 : n ≤ s5.next := Nat.le_trans hn1 hp5.1
    rw [hmBind_ok] at h
    obtain ⟨annos, s6, h6, h⟩ := h
    have hp6 := hIter_preserves hn5 h6
    have hn6 : n ≤ s6.next := Nat.le_trans hn5 hp6.1
    rw [hmBind_ok] at h
    obtain ⟨skip, s7, h7, h⟩ := h
    have := hAnyTemplateId_stEq h7
    subst this
    split at h
    · exact preserves_trans hp1 (preserves_trans hp5 (preserves_trans hp6 (ih hgh hn6 h)))
    · rw [hmBind_ok] at h
      obtain ⟨nm, s8, h8, h⟩ := h
      have := hGet_stEq h8
      subst this
      rw [hmBind_ok] at h
      obtain ⟨tn, s9, h9, h⟩ := h
      have := hGet_stEq h9
      subst this
      rw [hmBind_ok] at h
      obtain ⟨emptyL, s10, h10, h⟩ := h
      obtain ⟨hp10, -, -⟩ := hAlloc_preserves hn6 h10
      have hn10 : n ≤ s10.next := Nat.le_trans hn6 hp10.1
      rw [hmBind_ok] at h
      obtain ⟨lJ0, s11, h11, h⟩ := h
      have := hGetD_stEq h11
      subst this
      rw [hmBind_ok] at h
      obtain ⟨bl, s12, h12, h⟩ := h
      have := hTruthy_stEq h12
      subst this
      rw [hmBind_ok] at h
      obtain ⟨lJ, s13, h13, h⟩ := h
      have hp13 := hCoalesce_preserves hn10 h13
      have hn13 : n ≤ s13.next := Nat.le_trans hn10 hp13.1
      rw [hmBind_ok] at h
      obtain ⟨lvls, s14, h14, h⟩ := h
      have hp14 := hIter_preserves hn13 h14
      have hn14 : n ≤ s14.next := Nat.le_trans hn13 hp14.1
      rw [hmBind_ok] at h
      obtain ⟨lvlNames, s15, h15, h⟩ := h
      have := hLevelNames_stEq h15
      subst this
      rw [hmBind_ok] at h
      obtain ⟨lvlArr, s16, h16, h⟩ := h
      obtain ⟨hp16, -, -⟩ := hAlloc_preserves hn14 h16
      have hn16 : n ≤ s16.next := Nat.le_trans hn14 hp16.1
      rw [hmBind_ok] at h
      obtain ⟨hi, s17, h17, h⟩ := h
      obtain ⟨hp17, -, -⟩ := hAlloc_preserves hn16 h17
      have hn17 : n ≤ s17.next := Nat.le_trans hn16 hp17.1
      rw [hmBind_ok] at h
      obtain ⟨u1, s18, h18, h⟩ := h
      have hp18 := hAppend_preserves hgh h18
      have hn18 : n ≤ s18.next := Nat.le_trans hn17 hp18.1
      have hp19 := ih hgh hn18 h
      exact preserves_trans hp1 (preserves_trans hp5 (preserves_trans hp6
        (preserves_trans hp10 (preserves_trans hp13 (preserves_trans hp14
        (preserves_trans hp16 (preserves_trans hp17 (preserves_trans hp18 hp19))))))))

theorem hHierLoop_preserves :
    ∀ {tl : List Nat} {gHiers n : Nat} {s : HSt} {u : Unit} {s2 : HSt},
    n ≤ gHiers → n ≤ s.next →
    hHierLoop tl gHiers s = .ok (u, s2) → Preserves n s s2 := by
  intro tl
  induction tl with
  | nil =>
    intro gHiers n s u s2 hgh hn h
    exact preserves_of_eq (hPure_ok h).2
  | cons t rest ih =>
    intro gHiers n s u s2 hgh hn h
    unfold hHierLoop at h
    rw [hmBind_ok] at h
    obtain ⟨hid, sA, hA, h⟩ := h
    have := hGet_stEq hA
    subst this
    rw [hmBind_ok] at h
    obtain ⟨b, sB, hB, h⟩ := h
    have := hTruthy_stEq hB
    subst this
    split at h
    · exact ih hgh hn h
    · rw [hmBind_ok] at h
      obtain ⟨emptyH, s1, h1, h⟩ := h
      obtain ⟨hp1, -, -⟩ := hAlloc_preserves hn h1
      have hn1 : n ≤ s1.next := Nat.le_trans hn hp1.1
      rw [hmBind_ok] at h
      obtain ⟨hJ0, s3, h3, h⟩ := h
      have := hGetD_stEq h3
      subst this
      rw [hmBind_ok] at h
      obtain ⟨bh, s4, h4, h⟩ := h
      have := hTruthy_stEq h4
      subst this
      rw [hmBind_ok] at h
      obtain ⟨hJ, s5, h5, h⟩ := h
      have hp5 := hCoalesce_preserves hn1 h5
      have hn5 : n ≤ s5.next := Nat.le_trans hn1 hp5.1
      rw [hmBind_ok] at h
      obtain ⟨hlv, s6, h6, h⟩ := h
      have hp6 := hIter_preserves hn5 h6
      have hn6 : n ≤ s6.next := Nat.le_trans hn5 hp6.1
      rw [hmBind_ok] at h
      obtain ⟨u1, s7, h7, h⟩ := h
      have hp7 := hHierInner_preserves hgh hn6 h7
      have hn7 : n ≤ s7.next := Nat.le_trans hn6 hp7.1
      have hp8 := ih hgh hn7 h
      exact preserves_trans hp1 (preserves_trans hp5 (preserves_trans hp6
        (preserves_trans hp7 hp8)))

/-- The heap region below an address bound reads the same in both
states. -/
def heapUnchangedBelow (n : Nat) (s s2 : HSt) : Prop :=
  ∀ a, a < n → hLookup s2.mem a = hLookup s.mem a

/-- C9: frame property of the heap-level extractor: on any successful
run, every address that existed before the call (in particular the input
model tree and everything reachable from it) still holds exactly the
same cell value afterwards, and the returned grading dict lives at a
fresh address, so the result is built entirely from newly constructed
containers and the input is never mutated. -/
theorem hExtract_frame (fuel model : Nat) (s : HSt) (g : Nat) (s2 : HSt)
    (h : hExtract fuel model s = .ok (g, s2)) :
    s.next ≤ g ∧ s.next ≤ s2.next ∧ heapUnchangedBelow s.next s s2 := by
  obtain ⟨n, hn_def⟩ : ∃ n, n = s.next := ⟨s.next, rfl⟩
  rw [← hn_def]
  have hn : n ≤ s.next := Nat.le_of_eq hn_def
  unfold hExtract at h
  rw [hmBind_ok] at h
  obtain ⟨mval, sA, hA, h⟩ := h
  have := hGet_stEq hA
  subst this
  rw [hmBind_ok] at h
  obtain ⟨mvObj, sB, hB, h⟩ := h
  have := hIsObj_stEq hB
  subst this
  rw [hmBind_ok] at h
  obtain ⟨nameR, sC, hC, h⟩ := h
  have := hGet_stEq hC
  subst this
  rw [hmBind_ok] at h
  obtain ⟨tR, sD, hD, h⟩ := h
  have := hTruthy_stEq hD
  subst this
  rw [hmBind_ok] at h
  obtain ⟨nameN, sE, hE, h⟩ := h
  have := hGet_stEq hE
  subst this
  rw [hmBind_ok] at h
  obtain ⟨tN, sF, hF, h⟩ := h
  have := hTruthy_stEq hF
  subst this
  rw [hmBind_ok] at h
  obtain ⟨unk, s1, h1, h⟩ := h
  obtain ⟨hp1, -, -⟩ := hAlloc_preserves hn h1
  have hn1 : n ≤ s1.next := Nat.le_trans hn hp1.1
  rw [hmBind_ok] at h
  obtain ⟨compR, sG, hG, h⟩ := h
  have := hGet_stEq hG
  subst this
  rw [hmBind_ok] at h
  obtain ⟨cR, sH, hH, h⟩ := h
  have := hTruthy_stEq hH
  subst this
  rw [hmBind_ok] at h
  obtain ⟨compN, sI, hI, h⟩ := h
  have := hGet_stEq hI
  subst this
  rw [hmBind_ok] at h
  obtain ⟨gTables, s3, h3, h⟩ := h
  obtain ⟨hp3, hgta, -⟩ := hAlloc_preserves hn1 h3
  have hgt : n ≤ gTables := by omega
  have hn3 : n ≤ s3.next := Nat.le_trans hn1 hp3.1
  rw [hmBind_ok] at h
  obtain ⟨gMeasures, s4, h4, h⟩ := h
  obtain ⟨hp4, hgma, -⟩ := hAlloc_preserves hn3 h4
  have hgm : n ≤ gMeasures := by omega
  have hn4 : n ≤ s4.next := Nat.le_trans hn3 hp4.1
  rw [hmBind_ok] at h
  obtain ⟨gRels, s5, h5, h⟩ := h
  obtain ⟨hp5, hgra, -⟩ := hAlloc_preserves hn4 h5
  have hgr : n ≤ gRels := by omega
  have hn5 : n ≤ s5.next := Nat.le_trans hn4 hp5.1
  rw [hmBind_ok] at h
  obtain ⟨gHiers, s6, h6, h⟩ := h
  obtain ⟨hp6, hgha, -⟩ := hAlloc_preserves hn5 h6
  have hgh : n ≤ gHiers := by omega
  have hn6 : n ≤ s6.next := Nat.le_trans hn5 hp6.1
  rw [hmBind_ok] at h
  obtain ⟨gSummary, s7, h7, h⟩ := h
  obtain ⟨hp7, -, -⟩ := hAlloc_preserves hn6 h7
  have hn7 : n ≤ s7.next := Nat.le_trans hn6 hp7.1
  rw [hmBind_ok] at h
  obtain ⟨grading, s8, h8, h⟩ := h
  obtain ⟨hp8, hga, -⟩ := hAlloc_preserves hn7 h8
  have hgrad : n ≤ grading := by omega
  have hn8 : n ≤ s8.next := Nat.le_trans hn7 hp8.1
  rw [hmBind_ok] at h
  obtain ⟨rootObj, sJ, hJ, h⟩ := h
  have := hIsObj_stEq hJ
  subst this
  rw [hmBind_ok] at h
  obtain ⟨emptyT, s9, h9, h⟩ := h
  obtain ⟨hp9, -, -⟩ := hAlloc_preserves hn8 h9
  have hn9 : n ≤ s9.next := Nat.le_trans hn8 hp9.1
  rw [hmBind_ok] at h
  obtain ⟨tablesJ, sK, hK, h⟩ := h
  have := hGetDIf_stEq hK
  subst this
  rw [hmBind_ok] at h
  obtain ⟨emptyR, s10, h10, h⟩ := h
  obtain ⟨hp10, -, -⟩ := hAlloc_preserves hn9 h10
  have hn10 : n ≤ s10.next := Nat.le_trans hn9 hp10.1
  rw [hmBind_ok] at h
  obtain ⟨relsJ, sL, hL, h⟩ := h
  have := hGetDIf_stEq hL
  subst this
  rw [hmBind_ok] at h
  obtain ⟨ts, s11, h11, h⟩ := h
  have hp11 := hIter_preserves hn10 h11
  have hn11 : n ≤ s11.next := Nat.le_trans hn10 hp11.1
  rw [hmBind_ok] at h
  obtain ⟨u1, s12, h12, h⟩ := h
  have hp12 := hTableLoop_preserves hgrad hgt hgm hn11 h12
  have hn12 : n ≤ s12.next := Nat.le_trans hn11 hp12.1
  rw [hmBind_ok] at h
  obtain ⟨rls, s13, h13, h⟩ := h
  have hp13 := hIter_preserves hn12 h13
  have hn13 : n ≤ s13.next := Nat.le_trans hn12 hp13.1
  rw [hmBind_ok] at h
  obtain ⟨u2, s14, h14, h⟩ := h
  have hp14 := hRelLoop_preserves hgr hn13 h14
  have hn14 : n ≤ s14.next := Nat.le_trans hn13 hp14.1
  rw [hmBind_ok] at h
  obtain ⟨u3, s15, h15, h⟩ := h
  have hp15 := hHierLoop_preserves hgh hn14 h15
  have hn15 : n ≤ s15.next := Nat.le_trans hn14 hp15.1
  rw [hmBind_ok] at h
  obtain ⟨gt2, s16, h16, h⟩ := h
  have := hGet_stEq h16
  subst this
  rw [hmBind_ok] at h
  obtain ⟨tisL, s17, h17, h⟩ := h
  have hp17 := hIter_preserves hn15 h17
  have hn17 : n ≤ s17.next := Nat.le_trans hn15 hp17.1
  rw [hmBind_ok] at h
  obtain ⟨pref, s18, h18, h⟩ := h
  have := hFindSheet1_stEq h18
  subst this
  have hpAll :=
    preserves_trans hp1 (preserves_trans hp3 (preserves_trans hp4
      (preserves_trans hp5 (preserves_trans hp6 (preserves_trans hp7
      (preserves_trans hp8 (preserves_trans hp9 (preserves_trans hp10
      (preserves_trans hp11 (preserves_trans hp12 (preserves_trans hp13
      (preserves_trans hp14 (preserves_trans hp15 hp17)))))))))))))
  cases hsc : (match pref with | some a => some a | none => tisL.head?) with
  | none =>
    simp only [hsc] at h
    obtain ⟨hg2, hs2⟩ := hPure_ok h
    subst hg2
    subst hs2
    exact ⟨hgrad, Nat.le_trans hn hpAll.1, hpAll.2⟩
  | some mA =>
    simp only [hsc] at h
    rw [hmBind_ok] at h
    obtain ⟨bMain, sM, hM, h⟩ := h
    have := hTruthy_stEq hM
    subst this
    split at h
    · rw [hmBind_ok] at h
      obtain ⟨nmA, sN, hN, h⟩ := h
      have := hGet_stEq hN
      subst this
      rw [hmBind_ok] at h
      obtain ⟨emptyC, s19, h19, h⟩ := h
      obtain ⟨hp19, -, -⟩ := hAlloc_preserves hn17 h19
      have hn19 : n ≤ s19.next := Nat.le_trans hn17 hp19.1
      rw [hmBind_ok] at h
      obtain ⟨colsA, sO, hO, h⟩ := h
      have := hGetD_stEq hO
      subst this
      rw [hmBind_ok] at h
      obtain ⟨ncols, sP, hP, h⟩ := h
      have := hLen_stEq hP
      subst this
      rw [hmBind_ok] at h
      obtain ⟨gm2, sQ, hQ, h⟩ := h
      have := hGet_stEq hQ
      subst this
      rw [hmBind_ok] at h
      obtain ⟨nms, sR, hR, h⟩ := h
      have := hLen_stEq hR
      subst this
      rw [hmBind_ok] at h
      obtain ⟨gr2, sS, hS, h⟩ := h
      have := hGet_stEq hS
      subst this
      rw [hmBind_ok] at h
      obtain ⟨nrs, sT, hT, h⟩ := h
      have := hLen_stEq hT
      subst this
      rw [hmBind_ok] at h
      obtain ⟨gh2, sU, hU, h⟩ := h
      have := hGet_stEq hU
      subst this
      rw [hmBind_ok] at h
      obtain ⟨nhs, sV, hV, h⟩ := h
      have := hLen_stEq hV
      subst this
      rw [hmBind_ok] at h
      obtain ⟨msL, s20, h20, h⟩ := h
      have hp20 := hIter_preserves hn19 h20
      have hn20 : n ≤ s20.next := Nat.le_trans hn19 hp20.1
      rw [hmBind_ok] at h
      obtain ⟨hti, sW, hW, h⟩ := h
      have := hTimeIntel_stEq hW
      subst this
      rw [hmBind_ok] at h
      obtain ⟨a1, s21, h21, h⟩ := h
      obtain ⟨hp21, -, -⟩ := hAlloc_preserves hn20 h21
      have hn21 : n ≤ s21.next := Nat.le_trans hn20 hp21.1
      rw [hmBind_ok] at h
      obtain ⟨a2, s22, h22, h⟩ := h
      obtain ⟨hp22, -, -⟩ := hAlloc_preserves hn21 h22
      have hn22 : n ≤ s22.next := Nat.le_trans hn21 hp22.1
      rw [hmBind_ok] at h
      obtain ⟨a3, s23, h23, h⟩ := h
      obtain ⟨hp23, -, -⟩ := hAlloc_preserves hn22 h23
      have hn23 : n ≤ s23.next := Nat.le_trans hn22 hp23.1
      rw [hmBind_ok] at h
      obtain ⟨a4, s24, h24, h⟩ := h
      obtain ⟨hp24, -, -⟩ := hAlloc_preserves hn23 h24
      have hn24 : n ≤ s24.next := Nat.le_trans hn23 hp24.1
      rw [hmBind_ok] at h
      obtain ⟨a5, s25, h25, h⟩ := h
      obtain ⟨hp25, -, -⟩ := hAlloc_preserves hn24 h25
      have hn25 : n ≤ s25.next := Nat.le_trans hn24 hp25.1
      rw [hmBind_ok] at h
      obtain ⟨sm, s26, h26, h⟩ := h
      obtain ⟨hp26, -, -⟩ := hAlloc_preserves hn25 h26
      have hn26 : n ≤ s26.next := Nat.le_trans hn25 hp26.1
      rw [hmBind_ok] at h
      obtain ⟨u4, s27, h27, h⟩ := h
      have hp27 := hDictSet_preserves hgrad h27
      obtain ⟨hg2, hs2⟩ := hPure_ok h
      subst hg2
      subst hs2
      have hfinal :=
        preserves_trans hpAll (preserves_trans hp19 (preserves_trans hp20
          (preserves_trans hp21 (preserves_trans hp22 (preserves_trans hp23
          (preserves_trans hp24 (preserves_trans hp25 (preserves_trans hp26 hp27))))))))
      exact ⟨hgrad, Nat.le_trans hn hfinal.1, hfinal.2⟩
    · obtain ⟨hg2, hs2⟩ := hPure_ok h
      subst hg2
      subst hs2
      exact ⟨hgrad, Nat.le_trans hn hpAll.1, hpAll.2⟩

/-- A concrete initial machine: the None singleton at address 0 and an
empty model dict at address 1. -/
def frameHeap : HSt := ⟨2, [(0, .null), (1, .obj [])]⟩

/-- The run of the heap-level extractor on frameHeap. -/
def frameRun : Except String (Nat × HSt) := hExtract 8 1 frameHeap

/-- Address returned by frameRun. -/
def frameOutAddr : Nat :=
  match frameRun with
  | .ok (a, _) => a
  | .error _ => 0

/-- Final state of frameRun. -/
def frameOutSt : HSt :=
  match frameRun with
  | .ok (_, st) => st
  | .error _ => frameHeap

set_option maxHeartbeats 1000000 in
/-- Witness for C9: on the concrete machine the run succeeds, the
returned dict is at a fresh address and the pre-existing cells are
untouched. -/
theorem hExtract_frame_witness :
    frameHeap.next ≤ frameOutAddr ∧ frameHeap.next ≤ frameOutSt.next ∧
    heapUnchangedBelow frameHeap.next frameHeap frameOutSt :=
  hExtract_frame 8 1 frameHeap frameOutAddr frameOutSt (by rfl)
